import Mathlib

/-!
Shallow embedding of the RotHex puzzle core (`public/src/core`).

Modelling conventions:
- JS strings are Lean `String`s; the decimal rendering of an integer inside a
  template literal is reproduced by an explicit digit printer.
- A JS `Map` is an association list in insertion order with `Map.get` /
  `Map.set` semantics (`js_get` / `js_set`); `Map.get` on an absent key is
  `none`.
- JS numbers are exact: the core only performs integer arithmetic except in
  the parameter-derivation code, where values live in the ring Q[sqrt 3]
  (represented exactly by `Q3`) and are related to real numbers by `Q3.toReal`.
- Throwing code is modelled with `Except`; `apply_move` returns the state
  observable after the call next to the outcome, because the JS function
  mutates its argument in place.
-/

namespace RotHex

/-- Hex cell: the integer pair (q, r) (`coords.js`). -/
structure Cell where
  q : Int
  r : Int
deriving DecidableEq, Repr

/-- Fuelled digit printer: with enough fuel it peels off the last decimal
digit of `n` at each step.  The fuel makes the recursion structural, so the
definition reduces inside the kernel. -/
def nat_to_digit_chars_go (fuel n : Nat) : List Char :=
  match fuel with
  | 0 => []
  | fuel' + 1 =>
    if n < 10 then [Nat.digitChar n]
    else nat_to_digit_chars_go fuel' (n / 10) ++ [Nat.digitChar (n % 10)]

/-- Decimal digit characters of a natural number, exactly as a JS template
literal renders a nonnegative integer (`n + 1` is always enough fuel). -/
def nat_to_digit_chars (n : Nat) : List Char :=
  nat_to_digit_chars_go (n + 1) n

/-- Decimal character sequence of an integer, as a JS template literal
renders it: a minus sign followed by the digits of the absolute value for
negative integers, plain digits otherwise. -/
def int_to_decimal_chars (i : Int) : List Char :=
  if i < 0 then '-' :: nat_to_digit_chars i.natAbs else nat_to_digit_chars i.toNat

/-- `cell_key` (`coords.js`): the canonical string "q,r". -/
def cell_key (cell : Cell) : String :=
  String.mk (int_to_decimal_chars cell.q ++ [','] ++ int_to_decimal_chars cell.r)

/-- JS `Map` with string keys: an association list in insertion order. -/
abbrev JsMap (α : Type) : Type := List (String × α)

/-- `Map.get`: the value stored at the key, `none` when absent. -/
def js_get {α : Type} (m : JsMap α) (k : String) : Option α :=
  (List.find? (fun p => p.1 == k) m).map (fun p => p.2)

/-- `Map.set`: overwrite the value in place when the key is present, append a
new entry otherwise. -/
def js_set {α : Type} (m : JsMap α) (k : String) (v : α) : JsMap α :=
  if m.any (fun p => p.1 == k) then
    m.map (fun p => if p.1 == k then (k, v) else p)
  else m ++ [(k, v)]

theorem js_get_nil {α : Type} (k : String) : js_get ([] : JsMap α) k = none := rfl

theorem js_get_cons {α : Type} (p : String × α) (m : JsMap α) (k : String) :
    js_get (p :: m) k = if p.1 = k then some p.2 else js_get m k := by
  by_cases h : p.1 = k
  · rw [js_get, List.find?_cons_of_pos _ (by simp [h]), if_pos h]
    rfl
  · rw [js_get, List.find?_cons_of_neg _ (by simp [h]), if_neg h]
    rfl

theorem js_get_eq_none_of_not_any {α : Type} (m : JsMap α) (k : String)
    (hany : ¬ (m.any (fun p => p.1 == k)) = true) : js_get m k = none := by
  unfold js_get
  rw [List.find?_eq_none.mpr]
  · rfl
  · intro p hp hpk
    exact hany (List.any_eq_true.mpr ⟨p, hp, hpk⟩)

theorem js_get_append_single_of_some {α : Type} {m : JsMap α} {x : String} {w : α}
    (k : String) (v : α) (h : js_get m x = some w) :
    js_get (m ++ [(k, v)]) x = some w := by
  induction m with
  | nil => simp [js_get_nil] at h
  | cons p rest ih =>
    rw [js_get_cons] at h
    rw [List.cons_append, js_get_cons]
    by_cases hpx : p.1 = x
    · simpa [hpx] using h
    · rw [if_neg hpx] at h ⊢
      exact ih h

theorem js_get_append_single_of_none {α : Type} {m : JsMap α} {x : String}
    (k : String) (v : α) (h : js_get m x = none) :
    js_get (m ++ [(k, v)]) x = if k = x then some v else none := by
  induction m with
  | nil => simp [js_get_cons, js_get_nil]
  | cons p rest ih =>
    rw [js_get_cons] at h
    rw [List.cons_append, js_get_cons]
    by_cases hpx : p.1 = x
    · simp [hpx] at h
    · rw [if_neg hpx] at h ⊢
      exact ih h

theorem js_get_map_replace {α : Type} (m : JsMap α) (k x : String) (v : α) :
    js_get (m.map (fun p => if p.1 == k then (k, v) else p)) x =
      if x = k ∧ (m.any (fun p => p.1 == k)) = true then some v else js_get m x := by
  induction m with
  | nil => simp [js_get_nil]
  | cons p rest ih =>
    rw [List.map_cons, js_get_cons, js_get_cons, ih, List.any_cons]
    by_cases hpk : p.1 = k
    · by_cases hxk : x = k
      · subst hxk
        simp [hpk]
      · have hfst : (if (p.1 == k) = true then ((k, v) : String × α) else p).1 = k := by
          simp [hpk]
        rw [if_neg (show ¬ ((if (p.1 == k) = true then ((k, v) : String × α) else p).1 = x) by
          rw [hfst]; exact fun h => hxk h.symm)]
        rw [if_neg (show ¬ (p.1 = x) by rw [hpk]; exact fun h => hxk h.symm)]
        simp [hxk]
    · have hfst : (if (p.1 == k) = true then ((k, v) : String × α) else p) = p := by
        simp [hpk]
      rw [hfst]
      by_cases hpx : p.1 = x
      · have hxk : ¬ (x = k) := fun h => hpk (hpx.trans h)
        simp [hpx, hxk]
      · rw [if_neg hpx, if_neg hpx,
          show ((p.1 == k) || rest.any (fun p => p.1 == k)) = rest.any (fun p => p.1 == k) by
            simp [hpk]]

/-- The fundamental `Map.set` / `Map.get` law. -/
theorem js_get_js_set {α : Type} (m : JsMap α) (k x : String) (v : α) :
    js_get (js_set m k v) x = if x = k then some v else js_get m x := by
  unfold js_set
  by_cases hany : (m.any (fun p => p.1 == k)) = true
  · rw [if_pos hany, js_get_map_replace]
    by_cases hxk : x = k <;> simp [hxk, hany]
  · rw [if_neg hany]
    by_cases hxk : x = k
    · subst hxk
      rw [js_get_append_single_of_none x v (js_get_eq_none_of_not_any m x hany),
        if_pos rfl, if_pos rfl]
    · have hk : ¬ (k = x) := fun h => hxk h.symm
      cases hw : js_get m x with
      | none => rw [js_get_append_single_of_none k v hw, if_neg hk, if_neg hxk]
      | some w => rw [js_get_append_single_of_some k v hw, if_neg hxk]

/-- Membership in a `js_set` result comes from the old map or is the new entry. -/
theorem mem_js_set {α : Type} (m : JsMap α) (k : String) (v : α) (p : String × α) :
    p ∈ js_set m k v → p ∈ m ∨ p = (k, v) := by
  unfold js_set
  by_cases hany : (m.any (fun q => q.1 == k)) = true
  · rw [if_pos hany]
    intro hp
    rcases List.mem_map.mp hp with ⟨q, hq, hqe⟩
    by_cases hqk : q.1 = k
    · right
      rw [if_pos (by simp [hqk])] at hqe
      exact hqe.symm
    · left
      rw [if_neg (by simp [hqk])] at hqe
      exact hqe ▸ hq
  · rw [if_neg hany]
    intro hp
    rcases List.mem_append.mp hp with h | h
    · exact Or.inl h
    · exact Or.inr (by simpa using h)

/-- `positive_mod` (`move.js`). Lean `%` on `Int` is the Euclidean remainder;
the JS `%` is the truncated remainder, which differs on negative operands,
but after the `(+ modulus) % modulus` wrap both produce the same function of
`value` for every positive modulus, so the composite below is exactly the JS
function on the moduli the program uses. -/
def positive_mod (value modulus : Int) : Int :=
  ((value % modulus) + modulus) % modulus

theorem positive_mod_eq_emod (value : Int) : positive_mod value 6 = value % 6 := by
  unfold positive_mod
  omega

theorem positive_mod_nonneg (value : Int) : 0 ≤ positive_mod value 6 := by
  rw [positive_mod_eq_emod]; omega

theorem positive_mod_lt (value : Int) : positive_mod value 6 < 6 := by
  rw [positive_mod_eq_emod]; omega

/-- `AnchorInstance` (`operators.js` / `move.js`). The `anchor_world` field (a
floating-point pivot position consumed only by UI hit-testing) is omitted: no
core state logic reads it. A JS object without the optional `spin_cells`
field is modelled by the empty list, matching `?? []` in `apply_move`. -/
structure AnchorInstance where
  operator_id : String
  anchor_id : String
  cells : List String
  spin_cells : List String
  rotation_steps_cw : Int
deriving DecidableEq, Repr

/-- `BoardState` (`board_state.js`): four string-keyed maps. -/
structure BoardState where
  cell_to_tile_id : JsMap String
  tile_id_to_cell : JsMap String
  tile_rot : JsMap Int
  tile_home_cell : JsMap String
deriving DecidableEq, Repr

/-- The tile occupying each cycle cell, read before any mutation: the JS
`map` callback (`move.js` lines 42-48) throws on the first unoccupied cell. -/
def resolve_cycle (state : BoardState) : List String → Except String (List String)
  | [] => Except.ok []
  | cell_key_value :: rest =>
    match js_get state.cell_to_tile_id cell_key_value with
    | none => Except.error ("Missing tile in cell " ++ cell_key_value ++ ".")
    | some tile_id =>
      match resolve_cycle state rest with
      | Except.error e => Except.error e
      | Except.ok tile_ids => Except.ok (tile_id :: tile_ids)

/-- The write index of the permutation loop: `(i + 1) % N` clockwise,
`(i - 1 + N) % N` otherwise (the JS branch tests `direction_sign === 1`). -/
def destination_index (direction_sign : Int) (cycle_length source_index : Nat) : Nat :=
  if direction_sign = 1 then (source_index + 1) % cycle_length
  else (source_index + cycle_length - 1) % cycle_length

/-- One iteration of the permutation loop (`move.js` lines 50-65): move the
tile at cycle position `source_index` to the next (or previous) cycle cell
and update its rotation. -/
def move_step (cycle_cell_keys source_tile_ids : List String)
    (rotation_steps_cw direction_sign : Int) (state : BoardState)
    (source_index : Nat) : BoardState :=
  let cycle_length := cycle_cell_keys.length
  let tile_id := source_tile_ids.getD source_index ""
  let destination_cell_key :=
    cycle_cell_keys.getD (destination_index direction_sign cycle_length source_index) ""
  let previous_rotation_steps := (js_get state.tile_rot tile_id).getD 0
  { state with
    cell_to_tile_id := js_set state.cell_to_tile_id destination_cell_key tile_id
    tile_id_to_cell := js_set state.tile_id_to_cell tile_id destination_cell_key
    tile_rot := js_set state.tile_rot tile_id
      (positive_mod (previous_rotation_steps - rotation_steps_cw * direction_sign) 6) }

/-- The whole permutation loop of `apply_move`. -/
def apply_cycle (cycle_cell_keys source_tile_ids : List String)
    (rotation_steps_cw direction_sign : Int) (state : BoardState) : BoardState :=
  (List.range cycle_cell_keys.length).foldl
    (move_step cycle_cell_keys source_tile_ids rotation_steps_cw direction_sign) state

/-- One iteration of the spin-cell loop (`move.js` lines 69-80): rotate in
place the tile, if any, currently at the spin cell, recording its id; an
unoccupied spin cell is skipped silently. -/
def spin_step (rotation_steps_cw direction_sign : Int)
    (acc : BoardState × List String) (spin_cell_key : String) : BoardState × List String :=
  match js_get acc.1.cell_to_tile_id spin_cell_key with
  | none => acc
  | some spin_tile_id =>
    let previous_rotation_steps := (js_get acc.1.tile_rot spin_tile_id).getD 0
    ({ acc.1 with
        tile_rot := js_set acc.1.tile_rot spin_tile_id
          (positive_mod (previous_rotation_steps - rotation_steps_cw * direction_sign) 6) },
     acc.2 ++ [spin_tile_id])

/-- The spin-cell pass of `apply_move` (`move.js` lines 67-80). -/
def apply_spins (spin_cell_keys : List String) (rotation_steps_cw direction_sign : Int)
    (state : BoardState) : BoardState × List String :=
  spin_cell_keys.foldl (spin_step rotation_steps_cw direction_sign) (state, [])

/-- Order-preserving first-occurrence dedup: the iteration order of the JS
`new Set(list)` spread in `apply_move`'s return value. -/
def dedup_keep_first_go {α : Type} [DecidableEq α] (fuel : Nat) (l : List α) :
    List α :=
  match fuel, l with
  | 0, _ => []
  | _, [] => []
  | fuel' + 1, x :: xs => x :: dedup_keep_first_go fuel' (xs.filter (fun y => y != x))

def dedup_keep_first {α : Type} [DecidableEq α] (l : List α) : List α :=
  dedup_keep_first_go l.length l

/-- `apply_move` (`move.js` lines 38-83). The returned `BoardState` is the
state observable after the call: the cycle resolution throws before any
mutation, so on failure the incoming state is returned unchanged next to the
error. -/
def apply_move (state : BoardState) (anchor_instance : AnchorInstance)
    (direction_sign : Int) : BoardState × Except String (List String) :=
  match resolve_cycle state anchor_instance.cells with
  | Except.error e => (state, Except.error e)
  | Except.ok source_tile_ids =>
    let state1 := apply_cycle anchor_instance.cells source_tile_ids
      anchor_instance.rotation_steps_cw direction_sign state
    let spin_result := apply_spins anchor_instance.spin_cells
      anchor_instance.rotation_steps_cw direction_sign state1
    (spin_result.1, Except.ok (dedup_keep_first (source_tile_ids ++ spin_result.2)))

/-- `neighbor_cell` (`coords.js`): row-parity-dependent neighbor offsets. The
JS `r % 2 === 0` parity test agrees with the Euclidean `%` parity test on
every integer, and the normalization `((d % 6) + 6) % 6` of the direction
index is the Euclidean remainder, as in `positive_mod`. -/
def neighbor_cell (cell : Cell) (direction_index : Int) : Cell :=
  let normalized_index := ((direction_index % 6) + 6) % 6
  let is_even_row := cell.r % 2 = 0
  let even_row_offsets : List (Int × Int) :=
    [(1, 0), (1, -1), (0, -1), (-1, 0), (0, 1), (1, 1)]
  let odd_row_offsets : List (Int × Int) :=
    [(1, 0), (0, -1), (-1, -1), (-1, 0), (-1, 1), (0, 1)]
  let direction_offset :=
    if is_even_row then even_row_offsets.getD normalized_index.toNat (0, 0)
    else odd_row_offsets.getD normalized_index.toNat (0, 0)
  { q := cell.q + direction_offset.1, r := cell.r + direction_offset.2 }

/-- `Grid` (`grid.js`): dimensions and the ordered playable cell list. The
`has_cell` closure over the key set is `grid_has_cell` below. -/
structure Grid where
  w : Nat
  h : Nat
  all_cells : List Cell
deriving DecidableEq, Repr

/-- The cell rows generated by `create_grid`: row `r` has length `w` when `r`
is even and `w + 1` when `r` is odd. -/
def grid_cells (grid_w grid_h : Nat) : List Cell :=
  (List.range grid_h).flatMap (fun row_index =>
    (List.range (if row_index % 2 = 0 then grid_w else grid_w + 1)).map
      (fun (column_index : Nat) =>
        { q := (column_index : Int), r := (row_index : Int) }))

/-- `create_grid` (`grid.js`): fails when the height is even, otherwise
produces the full alternating-row cell list. -/
def create_grid (grid_w grid_h : Nat) : Except String Grid :=
  if grid_h % 2 = 0 then Except.error "GRID_H must be odd."
  else Except.ok { w := grid_w, h := grid_h, all_cells := grid_cells grid_w grid_h }

/-- The grid's `has_cell` closure: membership of the cell's key in the set of
keys of the generated cells. -/
def grid_has_cell (grid : Grid) (cell : Cell) : Bool :=
  grid.all_cells.any (fun c => cell_key c == cell_key cell)

/-- `get_cell_count` (`grid.js`). -/
def get_cell_count (grid : Grid) : Nat :=
  grid.all_cells.length

/-- The loop body of `create_solved_state`: insert one cell's tile into the
four maps; the tile id is the cell key. -/
def solved_insert (state : BoardState) (cell : Cell) : BoardState :=
  let key := cell_key cell
  let tile_id := key
  { cell_to_tile_id := js_set state.cell_to_tile_id key tile_id
    tile_id_to_cell := js_set state.tile_id_to_cell tile_id key
    tile_rot := js_set state.tile_rot tile_id 0
    tile_home_cell := js_set state.tile_home_cell tile_id key }

/-- `create_solved_state` (`board_state.js`): for every cell, tile identity =
home = the cell key and rotation 0. -/
def create_solved_state (grid : Grid) : BoardState :=
  grid.all_cells.foldl solved_insert
    { cell_to_tile_id := [], tile_id_to_cell := [], tile_rot := [], tile_home_cell := [] }

/-- `is_solved` (`board_state.js`): every tile listed in `tile_home_cell` is
at its home cell with rotation 0 (a missing rotation entry reads as 0). -/
def is_solved (state : BoardState) : Bool :=
  state.tile_home_cell.all (fun p =>
    decide (js_get state.tile_id_to_cell p.1 = some p.2) &&
    decide ((js_get state.tile_rot p.1).getD 0 = 0))

/-- `collect_direction_cells` (`operators.js`). -/
def collect_direction_cells (cell : Cell) (direction_indices : List Int) : List Cell :=
  direction_indices.map (fun direction_index => neighbor_cell cell direction_index)

/-- `all_cells_exist` (`operators.js`). -/
def all_cells_exist (grid : Grid) (cells : List Cell) : Bool :=
  cells.all (fun cell => grid_has_cell grid cell)

/-- `build_cell_operator_instances` (`operators.js` lines 106-132): one
instance per grid cell whose required neighbor cells all exist; the anchor
cell itself is always the single spin cell. -/
def build_cell_operator_instances (grid : Grid) (operator_id : String)
    (direction_indices : List Int) (rotation_steps_cw : Int) : List AnchorInstance :=
  grid.all_cells.filterMap (fun anchor_cell =>
    let target_cells := collect_direction_cells anchor_cell direction_indices
    if all_cells_exist grid target_cells then
      let anchor_suffix :=
        if operator_id = "alt3_even_120" then ":even"
        else if operator_id = "alt3_odd_120" then ":odd" else ""
      some
        { operator_id := operator_id
          anchor_id := "cell:" ++ cell_key anchor_cell ++ anchor_suffix
          cells := target_cells.map (fun cell => cell_key cell)
          spin_cells := [cell_key anchor_cell]
          rotation_steps_cw := rotation_steps_cw }
    else none)

/-- UTF-16 code-unit comparison of character lists: the JS default string
comparison. All keys here are ASCII, where code units coincide with Unicode
scalar values. -/
def chars_lt : List Char → List Char → Bool
  | [], [] => false
  | [], _ :: _ => true
  | _ :: _, [] => false
  | a :: as, b :: bs =>
    if a.toNat < b.toNat then true
    else if b.toNat < a.toNat then false
    else chars_lt as bs

/-- JS default (lexicographic) string comparison. -/
def str_lt (s t : String) : Bool :=
  chars_lt s.data t.data

/-- Insert into an ascending list, used to model `Array.prototype.sort()` on
the three cell keys of a vertex triple. -/
def insert_sorted (x : String) : List String → List String
  | [] => [x]
  | h :: t => if str_lt h x then h :: insert_sorted x t else x :: h :: t

/-- `[...cell_keys].sort()`: ascending lexicographic order. -/
def sort_strings (l : List String) : List String :=
  l.foldr insert_sorted []

/-- The canonical vertex anchor id from the lexicographically sorted cell
keys of the triple (`operators.js` lines 205-207). -/
def vtx_anchor_id (cell_a cell_b cell_d : Cell) : String :=
  "vtx:" ++ String.intercalate "|" (sort_strings [cell_key cell_a, cell_key cell_b, cell_key cell_d])

/-- The (anchor cell, direction) pairs enumerated by the vertex builder's two
nested loops. -/
def vertex_candidate_pairs (grid : Grid) : List (Cell × Nat) :=
  grid.all_cells.flatMap (fun anchor_cell =>
    (List.range 6).map (fun direction_index => (anchor_cell, direction_index)))

/-- One step of the vertex builder: keep only triples fully inside the grid
and only the first discovery of each canonical anchor id. The accumulator is
(emitted instances, seen anchor ids). `get_shared_vertex_world` is omitted
with `anchor_world`: its 6x6x6 corner search always finds a candidate, and
its result feeds UI hit-testing only. -/
def vertex_step (grid : Grid) (acc : List AnchorInstance × List String)
    (pair : Cell × Nat) : List AnchorInstance × List String :=
  let cell_a := pair.1
  let cell_b := neighbor_cell pair.1 (pair.2 : Int)
  let cell_d := neighbor_cell pair.1 (((pair.2 + 1) % 6 : Nat) : Int)
  if all_cells_exist grid [cell_a, cell_b, cell_d] then
    let anchor_id := vtx_anchor_id cell_a cell_b cell_d
    if acc.2.contains anchor_id then acc
    else
      (acc.1 ++ [{ operator_id := "vertex3_120"
                   anchor_id := anchor_id
                   cells := [cell_key cell_a, cell_key cell_b, cell_key cell_d]
                   spin_cells := []
                   rotation_steps_cw := 2 }],
       acc.2 ++ [anchor_id])
  else acc

/-- `build_vertex_instances` (`operators.js` lines 140-227). -/
def build_vertex_instances (grid : Grid) : List AnchorInstance :=
  ((vertex_candidate_pairs grid).foldl (vertex_step grid) ([], [])).1

/-- `build_anchor_instances` (`operators.js` lines 82-96): dispatch on the
operator id, unknown ids throw. -/
def build_anchor_instances (grid : Grid) (operator_id : String) :
    Except String (List AnchorInstance) :=
  if operator_id = "ring6_60" then
    Except.ok (build_cell_operator_instances grid operator_id [0, 1, 2, 3, 4, 5] 1)
  else if operator_id = "alt3_even_120" then
    Except.ok (build_cell_operator_instances grid operator_id [0, 2, 4] 2)
  else if operator_id = "alt3_odd_120" then
    Except.ok (build_cell_operator_instances grid operator_id [1, 3, 5] 2)
  else if operator_id = "vertex3_120" then
    Except.ok (build_vertex_instances grid)
  else Except.error ("Unknown operator id: " ++ operator_id)

/-! ### Injectivity of `cell_key` -/

theorem nat_to_digit_chars_go_congr :
    ∀ (f1 n f2 : Nat), n < f1 → n < f2 →
      nat_to_digit_chars_go f1 n = nat_to_digit_chars_go f2 n := by
  intro f1
  induction f1 with
  | zero => intro n f2 h1 _; omega
  | succ g1 ih =>
    intro n f2 h1 h2
    obtain ⟨g2, rfl⟩ : ∃ g, f2 = g + 1 := ⟨f2 - 1, by omega⟩
    unfold nat_to_digit_chars_go
    by_cases h10 : n < 10
    · rw [if_pos h10, if_pos h10]
    · rw [if_neg h10, if_neg h10, ih (n / 10) g2 (by omega) (by omega)]

theorem nat_to_digit_chars_eq (n : Nat) :
    nat_to_digit_chars n =
      if n < 10 then [Nat.digitChar n]
      else nat_to_digit_chars (n / 10) ++ [Nat.digitChar (n % 10)] := by
  show nat_to_digit_chars_go (n + 1) n = _
  unfold nat_to_digit_chars_go
  by_cases h10 : n < 10
  · rw [if_pos h10, if_pos h10]
  · rw [if_neg h10, if_neg h10,
      nat_to_digit_chars_go_congr n (n / 10) (n / 10 + 1) (by omega) (by omega)]
    rfl

theorem nat_to_digit_chars_ne_nil (n : Nat) : nat_to_digit_chars n ≠ [] := by
  rw [nat_to_digit_chars_eq]
  split
  · simp
  · simp

theorem mem_nat_to_digit_chars {c : Char} :
    ∀ {n : Nat}, c ∈ nat_to_digit_chars n → ∃ k, k < 10 ∧ c = Nat.digitChar k := by
  intro n
  induction n using Nat.strong_induction_on with
  | _ n ih =>
    intro hc
    rw [nat_to_digit_chars_eq] at hc
    split at hc
    · next h =>
      exact ⟨n, h, by simpa using hc⟩
    · next h =>
      rcases List.mem_append.mp hc with h1 | h2
      · exact ih (n / 10) (Nat.div_lt_self (by omega) (by norm_num)) h1
      · exact ⟨n % 10, Nat.mod_lt n (by norm_num), by simpa using h2⟩

theorem digitChar_inj_of_lt {a b : Nat} (ha : a < 10) (hb : b < 10)
    (h : Nat.digitChar a = Nat.digitChar b) : a = b := by
  have key : ∀ x y : Fin 10, Nat.digitChar x.val = Nat.digitChar y.val → x = y := by decide
  have := key ⟨a, ha⟩ ⟨b, hb⟩ h
  exact congrArg Fin.val this

theorem digitChar_ne_comma_minus {k : Nat} (hk : k < 10) :
    Nat.digitChar k ≠ ',' ∧ Nat.digitChar k ≠ '-' := by
  have key : ∀ x : Fin 10, Nat.digitChar x.val ≠ ',' ∧ Nat.digitChar x.val ≠ '-' := by decide
  exact key ⟨k, hk⟩

theorem nat_to_digit_chars_inj : ∀ (n m : Nat),
    nat_to_digit_chars n = nat_to_digit_chars m → n = m := by
  intro n
  induction n using Nat.strong_induction_on with
  | _ n ih =>
    intro m h
    rw [nat_to_digit_chars_eq n, nat_to_digit_chars_eq m] at h
    split at h
    · next hn =>
      split at h
      · next hm =>
        exact digitChar_inj_of_lt hn hm (by simpa using h)
      · next hm =>
        cases hx : nat_to_digit_chars (m / 10) with
        | nil => exact absurd hx (nat_to_digit_chars_ne_nil _)
        | cons c t =>
          rw [hx] at h
          simp at h
    · next hn =>
      split at h
      · next hm =>
        cases hx : nat_to_digit_chars (n / 10) with
        | nil => exact absurd hx (nat_to_digit_chars_ne_nil _)
        | cons c t =>
          rw [hx] at h
          simp at h
      · next hm =>
        have hrev := congrArg List.reverse h
        simp only [List.reverse_append, List.reverse_cons, List.reverse_nil,
          List.nil_append, List.singleton_append] at hrev
        injection hrev with hhead htail
        have hmod : n % 10 = m % 10 :=
          digitChar_inj_of_lt (Nat.mod_lt n (by norm_num)) (Nat.mod_lt m (by norm_num)) hhead
        have hdiv : n / 10 = m / 10 :=
          ih (n / 10) (Nat.div_lt_self (by omega) (by norm_num)) (m / 10)
            (List.reverse_injective htail)
        omega

theorem comma_not_mem_int_chars (i : Int) : ',' ∉ int_to_decimal_chars i := by
  unfold int_to_decimal_chars
  split
  · intro hmem
    rcases List.mem_cons.mp hmem with h | h
    · exact absurd h.symm (by decide)
    · rcases mem_nat_to_digit_chars h with ⟨k, hk, hc⟩
      exact (digitChar_ne_comma_minus hk).1 hc.symm
  · intro hmem
    rcases mem_nat_to_digit_chars hmem with ⟨k, hk, hc⟩
    exact (digitChar_ne_comma_minus hk).1 hc.symm

theorem int_to_decimal_chars_inj {i j : Int}
    (h : int_to_decimal_chars i = int_to_decimal_chars j) : i = j := by
  unfold int_to_decimal_chars at h
  split at h
  · next hi =>
    split at h
    · next hj =>
      injection h with _ h2
      have := nat_to_digit_chars_inj _ _ h2
      omega
    · next hj =>
      exfalso
      have hmem : '-' ∈ nat_to_digit_chars j.toNat := by
        rw [← h]; exact List.mem_cons_self _ _
      rcases mem_nat_to_digit_chars hmem with ⟨k, hk, hc⟩
      exact (digitChar_ne_comma_minus hk).2 hc.symm
  · next hi =>
    split at h
    · next hj =>
      exfalso
      have hmem : '-' ∈ nat_to_digit_chars i.toNat := by
        rw [h]; exact List.mem_cons_self _ _
      rcases mem_nat_to_digit_chars hmem with ⟨k, hk, hc⟩
      exact (digitChar_ne_comma_minus hk).2 hc.symm
    · next hj =>
      have := nat_to_digit_chars_inj _ _ h
      omega

theorem append_comma_inj : ∀ (l1 : List Char) (l2 r1 r2 : List Char),
    ',' ∉ l1 → ',' ∉ l2 → l1 ++ ',' :: r1 = l2 ++ ',' :: r2 → l1 = l2 ∧ r1 = r2 := by
  intro l1
  induction l1 with
  | nil =>
    intro l2 r1 r2 _ hl2 h
    cases l2 with
    | nil => simpa using h
    | cons c t =>
      exfalso
      simp only [List.nil_append, List.cons_append] at h
      injection h with h1 _
      exact hl2 (List.mem_cons.mpr (Or.inl h1))
  | cons c t ih =>
    intro l2 r1 r2 hl1 hl2 h
    cases l2 with
    | nil =>
      exfalso
      simp only [List.nil_append, List.cons_append] at h
      injection h with h1 _
      exact hl1 (List.mem_cons.mpr (Or.inl h1.symm))
    | cons c' t' =>
      simp only [List.cons_append] at h
      injection h with h1 h2
      have ht := ih t' r1 r2 (fun hm => hl1 (List.mem_cons_of_mem c hm))
        (fun hm => hl2 (List.mem_cons_of_mem c' hm)) h2
      exact ⟨by rw [h1, ht.1], ht.2⟩

theorem cell_key_injective {a b : Cell} (h : cell_key a = cell_key b) : a = b := by
  unfold cell_key at h
  have hdata : int_to_decimal_chars a.q ++ [','] ++ int_to_decimal_chars a.r =
      int_to_decimal_chars b.q ++ [','] ++ int_to_decimal_chars b.r :=
    congrArg String.data h
  rw [List.append_assoc, List.append_assoc, List.singleton_append, List.singleton_append] at hdata
  have := append_comma_inj _ _ _ _ (comma_not_mem_int_chars a.q) (comma_not_mem_int_chars b.q) hdata
  have hq := int_to_decimal_chars_inj this.1
  have hr := int_to_decimal_chars_inj this.2
  cases a; cases b
  simp_all

theorem grid_has_cell_iff (grid : Grid) (cell : Cell) :
    grid_has_cell grid cell = true ↔ cell ∈ grid.all_cells := by
  unfold grid_has_cell
  rw [List.any_eq_true]
  constructor
  · rintro ⟨c, hc, hkey⟩
    have : c = cell := cell_key_injective (by simpa using hkey)
    exact this ▸ hc
  · intro hc
    exact ⟨cell, hc, by simp⟩

/-! ### Neighbor geometry -/

theorem neighbor_cell_eq (cell : Cell) (i : Int) (h0 : 0 ≤ i) (h6 : i < 6) :
    neighbor_cell cell i =
      { q := cell.q +
          ((if cell.r % 2 = 0 then
              ([(1, 0), (1, -1), (0, -1), (-1, 0), (0, 1), (1, 1)] : List (Int × Int))
            else
              ([(1, 0), (0, -1), (-1, -1), (-1, 0), (-1, 1), (0, 1)] : List (Int × Int))).getD
            i.toNat (0, 0)).1,
        r := cell.r +
          ((if cell.r % 2 = 0 then
              ([(1, 0), (1, -1), (0, -1), (-1, 0), (0, 1), (1, 1)] : List (Int × Int))
            else
              ([(1, 0), (0, -1), (-1, -1), (-1, 0), (-1, 1), (0, 1)] : List (Int × Int))).getD
            i.toNat (0, 0)).2 } := by
  unfold neighbor_cell
  have hnorm : ((i % 6) + 6) % 6 = i := by omega
  rw [hnorm]
  by_cases hpar : cell.r % 2 = 0 <;> simp [hpar]

theorem offsets_nonzero_even_fin :
    ∀ k : Fin 6,
      ¬ ((([(1, 0), (1, -1), (0, -1), (-1, 0), (0, 1), (1, 1)] :
          List (Int × Int)).getD k.val (0, 0)).1 = 0
        ∧ ((([(1, 0), (1, -1), (0, -1), (-1, 0), (0, 1), (1, 1)] :
          List (Int × Int)).getD k.val (0, 0)).2 = 0)) := by decide

theorem offsets_nonzero_odd_fin :
    ∀ k : Fin 6,
      ¬ ((([(1, 0), (0, -1), (-1, -1), (-1, 0), (-1, 1), (0, 1)] :
          List (Int × Int)).getD k.val (0, 0)).1 = 0
        ∧ ((([(1, 0), (0, -1), (-1, -1), (-1, 0), (-1, 1), (0, 1)] :
          List (Int × Int)).getD k.val (0, 0)).2 = 0)) := by decide

theorem offsets_inj_even_fin :
    ∀ k l : Fin 6, k.val ≠ l.val →
      ¬ ((([(1, 0), (1, -1), (0, -1), (-1, 0), (0, 1), (1, 1)] :
          List (Int × Int)).getD k.val (0, 0)).1 =
          (([(1, 0), (1, -1), (0, -1), (-1, 0), (0, 1), (1, 1)] :
          List (Int × Int)).getD l.val (0, 0)).1
        ∧ (([(1, 0), (1, -1), (0, -1), (-1, 0), (0, 1), (1, 1)] :
          List (Int × Int)).getD k.val (0, 0)).2 =
          (([(1, 0), (1, -1), (0, -1), (-1, 0), (0, 1), (1, 1)] :
          List (Int × Int)).getD l.val (0, 0)).2) := by decide

theorem offsets_inj_odd_fin :
    ∀ k l : Fin 6, k.val ≠ l.val →
      ¬ ((([(1, 0), (0, -1), (-1, -1), (-1, 0), (-1, 1), (0, 1)] :
          List (Int × Int)).getD k.val (0, 0)).1 =
          (([(1, 0), (0, -1), (-1, -1), (-1, 0), (-1, 1), (0, 1)] :
          List (Int × Int)).getD l.val (0, 0)).1
        ∧ (([(1, 0), (0, -1), (-1, -1), (-1, 0), (-1, 1), (0, 1)] :
          List (Int × Int)).getD k.val (0, 0)).2 =
          (([(1, 0), (0, -1), (-1, -1), (-1, 0), (-1, 1), (0, 1)] :
          List (Int × Int)).getD l.val (0, 0)).2) := by decide

theorem offsets_nonzero_even' (k : Nat) (hk : k < 6) :
    ¬ ((([(1, 0), (1, -1), (0, -1), (-1, 0), (0, 1), (1, 1)] :
        List (Int × Int)).getD k (0, 0)).1 = 0
      ∧ ((([(1, 0), (1, -1), (0, -1), (-1, 0), (0, 1), (1, 1)] :
        List (Int × Int)).getD k (0, 0)).2 = 0)) :=
  offsets_nonzero_even_fin ⟨k, hk⟩

theorem offsets_nonzero_odd' (k : Nat) (hk : k < 6) :
    ¬ ((([(1, 0), (0, -1), (-1, -1), (-1, 0), (-1, 1), (0, 1)] :
        List (Int × Int)).getD k (0, 0)).1 = 0
      ∧ ((([(1, 0), (0, -1), (-1, -1), (-1, 0), (-1, 1), (0, 1)] :
        List (Int × Int)).getD k (0, 0)).2 = 0)) :=
  offsets_nonzero_odd_fin ⟨k, hk⟩

theorem offsets_inj_even' (k l : Nat) (hk : k < 6) (hl : l < 6) (hkl : k ≠ l) :
    ¬ ((([(1, 0), (1, -1), (0, -1), (-1, 0), (0, 1), (1, 1)] :
        List (Int × Int)).getD k (0, 0)).1 =
        (([(1, 0), (1, -1), (0, -1), (-1, 0), (0, 1), (1, 1)] :
        List (Int × Int)).getD l (0, 0)).1
      ∧ (([(1, 0), (1, -1), (0, -1), (-1, 0), (0, 1), (1, 1)] :
        List (Int × Int)).getD k (0, 0)).2 =
        (([(1, 0), (1, -1), (0, -1), (-1, 0), (0, 1), (1, 1)] :
        List (Int × Int)).getD l (0, 0)).2) :=
  offsets_inj_even_fin ⟨k, hk⟩ ⟨l, hl⟩ hkl

theorem offsets_inj_odd' (k l : Nat) (hk : k < 6) (hl : l < 6) (hkl : k ≠ l) :
    ¬ ((([(1, 0), (0, -1), (-1, -1), (-1, 0), (-1, 1), (0, 1)] :
        List (Int × Int)).getD k (0, 0)).1 =
        (([(1, 0), (0, -1), (-1, -1), (-1, 0), (-1, 1), (0, 1)] :
        List (Int × Int)).getD l (0, 0)).1
      ∧ (([(1, 0), (0, -1), (-1, -1), (-1, 0), (-1, 1), (0, 1)] :
        List (Int × Int)).getD k (0, 0)).2 =
        (([(1, 0), (0, -1), (-1, -1), (-1, 0), (-1, 1), (0, 1)] :
        List (Int × Int)).getD l (0, 0)).2) :=
  offsets_inj_odd_fin ⟨k, hk⟩ ⟨l, hl⟩ hkl

theorem neighbor_cell_ne_self (cell : Cell) (i : Int) (h0 : 0 ≤ i) (h6 : i < 6) :
    neighbor_cell cell i ≠ cell := by
  rw [neighbor_cell_eq cell i h0 h6]
  intro h
  have hq := congrArg Cell.q h
  have hr := congrArg Cell.r h
  simp only at hq hr
  by_cases hpar : cell.r % 2 = 0
  · rw [if_pos hpar] at hq hr
    exact offsets_nonzero_even' i.toNat (by omega) ⟨by omega, by omega⟩
  · rw [if_neg hpar] at hq hr
    exact offsets_nonzero_odd' i.toNat (by omega) ⟨by omega, by omega⟩

theorem neighbor_cell_inj (cell : Cell) (i j : Int) (hi0 : 0 ≤ i) (hi6 : i < 6)
    (hj0 : 0 ≤ j) (hj6 : j < 6) (hij : i ≠ j) :
    neighbor_cell cell i ≠ neighbor_cell cell j := by
  rw [neighbor_cell_eq cell i hi0 hi6, neighbor_cell_eq cell j hj0 hj6]
  intro h
  have hq := congrArg Cell.q h
  have hr := congrArg Cell.r h
  simp only at hq hr
  by_cases hpar : cell.r % 2 = 0
  · rw [if_pos hpar] at hq hr
    exact offsets_inj_even' i.toNat j.toNat (by omega) (by omega) (by omega)
      ⟨by omega, by omega⟩
  · rw [if_neg hpar] at hq hr
    exact offsets_inj_odd' i.toNat j.toNat (by omega) (by omega) (by omega)
      ⟨by omega, by omega⟩

/-! ### Cycle resolution -/

theorem resolve_cycle_ok_of_occupied {state : BoardState} : ∀ {cells : List String},
    (∀ c ∈ cells, ∃ t, js_get state.cell_to_tile_id c = some t) →
    ∃ tiles, resolve_cycle state cells = Except.ok tiles := by
  intro cells
  induction cells with
  | nil => intro _; exact ⟨[], rfl⟩
  | cons c rest ih =>
    intro hocc
    obtain ⟨t, ht⟩ := hocc c (by simp)
    obtain ⟨ts, hts⟩ := ih (fun c' hc' => hocc c' (by simp [hc']))
    exact ⟨t :: ts, by simp only [resolve_cycle, ht, hts]⟩

theorem resolve_cycle_spec {state : BoardState} : ∀ {cells tiles : List String},
    resolve_cycle state cells = Except.ok tiles →
    tiles.length = cells.length ∧
    ∀ i, i < cells.length →
      js_get state.cell_to_tile_id (cells.getD i "") = some (tiles.getD i "") := by
  intro cells
  induction cells with
  | nil =>
    intro tiles h
    simp only [resolve_cycle, Except.ok.injEq] at h
    subst h
    exact ⟨rfl, fun i hi => absurd hi (by simp)⟩
  | cons c rest ih =>
    intro tiles h
    simp only [resolve_cycle] at h
    cases hg : js_get state.cell_to_tile_id c with
    | none => rw [hg] at h; simp at h
    | some t =>
      rw [hg] at h
      cases hr : resolve_cycle state rest with
      | error e => rw [hr] at h; simp at h
      | ok ts =>
        rw [hr] at h
        simp only [Except.ok.injEq] at h
        subst h
        obtain ⟨hlen, hpt⟩ := ih hr
        refine ⟨by simp [hlen], ?_⟩
        intro i hi
        cases i with
        | zero => simpa using hg
        | succ k =>
          simpa using hpt k (by simpa using hi)

theorem resolve_cycle_error_msg {state : BoardState} : ∀ {cells : List String} {e : String},
    resolve_cycle state cells = Except.error e →
    ∃ c ∈ cells, js_get state.cell_to_tile_id c = none ∧
      e = "Missing tile in cell " ++ c ++ "." := by
  intro cells
  induction cells with
  | nil => intro e h; simp [resolve_cycle] at h
  | cons c rest ih =>
    intro e h
    simp only [resolve_cycle] at h
    cases hg : js_get state.cell_to_tile_id c with
    | none =>
      rw [hg] at h
      simp only [Except.error.injEq] at h
      exact ⟨c, by simp, hg, h.symm⟩
    | some t =>
      rw [hg] at h
      cases hr : resolve_cycle state rest with
      | error e' =>
        rw [hr] at h
        simp only [Except.error.injEq] at h
        obtain ⟨c', hc', hgc', he'⟩ := ih hr
        exact ⟨c', by simp [hc'], hgc', h ▸ he'⟩
      | ok ts => rw [hr] at h; simp at h

/-- A cell of a list is some `getD` position of it. -/
theorem mem_getD_of_mem {l : List String} {c : String} (h : c ∈ l) :
    ∃ i, i < l.length ∧ l.getD i "" = c := by
  obtain ⟨i, hi, hg⟩ := List.getElem_of_mem h
  exact ⟨i, hi, by rw [List.getD_eq_getElem l "" hi, hg]⟩

theorem getD_mem_of_lt {l : List String} {i : Nat} (h : i < l.length) :
    l.getD i "" ∈ l := by
  rw [List.getD_eq_getElem l "" h]
  exact List.getElem_mem h

theorem getD_inj_of_nodup {l : List String} (h : l.Nodup) {a b : Nat}
    (ha : a < l.length) (hb : b < l.length) (heq : l.getD a "" = l.getD b "") : a = b := by
  rw [List.getD_eq_getElem l "" ha, List.getD_eq_getElem l "" hb] at heq
  have hinj := List.nodup_iff_injective_get.mp h
  have := hinj (show l.get ⟨a, ha⟩ = l.get ⟨b, hb⟩ by simpa using heq)
  exact congrArg Fin.val this

/-- Under the mutual-inverse invariant, the tiles resolved from pairwise
distinct occupied cells are pairwise distinct, and conversely. -/
theorem resolve_tiles_nodup {state : BoardState} {cells tiles : List String}
    (hinv : ∀ c t, js_get state.cell_to_tile_id c = some t ↔
      js_get state.tile_id_to_cell t = some c)
    (hok : resolve_cycle state cells = Except.ok tiles)
    (hcn : cells.Nodup) : tiles.Nodup := by
  obtain ⟨hlen, hpt⟩ := resolve_cycle_spec hok
  rw [List.nodup_iff_injective_get]
  intro a b hab
  have ha : a.val < cells.length := by have := a.isLt; omega
  have hb : b.val < cells.length := by have := b.isLt; omega
  have hga : js_get state.cell_to_tile_id (cells.getD a.val "") = some (tiles.getD a.val "") :=
    hpt a.val ha
  have hgb : js_get state.cell_to_tile_id (cells.getD b.val "") = some (tiles.getD b.val "") :=
    hpt b.val hb
  have htg : tiles.getD a.val "" = tiles.getD b.val "" := by
    rw [List.getD_eq_getElem tiles "" a.isLt, List.getD_eq_getElem tiles "" b.isLt]
    simpa using hab
  rw [htg] at hga
  have hca := (hinv _ _).mp hga
  have hcb := (hinv _ _).mp hgb
  have hceq : cells.getD a.val "" = cells.getD b.val "" := by
    have := hca.symm.trans hcb
    simpa using this
  have := getD_inj_of_nodup hcn ha hb hceq
  exact Fin.ext this

/-- Distinct resolved tiles force pairwise distinct cycle cells. -/
theorem cells_nodup_of_tiles_nodup {state : BoardState} {cells tiles : List String}
    (hok : resolve_cycle state cells = Except.ok tiles)
    (htn : tiles.Nodup) : cells.Nodup := by
  obtain ⟨hlen, hpt⟩ := resolve_cycle_spec hok
  rw [List.nodup_iff_injective_get]
  intro a b hab
  have ha : a.val < cells.length := a.isLt
  have hb : b.val < cells.length := b.isLt
  have hga := hpt a.val ha
  have hgb := hpt b.val hb
  have hceq : cells.getD a.val "" = cells.getD b.val "" := by
    rw [List.getD_eq_getElem cells "" ha, List.getD_eq_getElem cells "" hb]
    simpa using hab
  rw [hceq] at hga
  have hteq : tiles.getD a.val "" = tiles.getD b.val "" := by
    have := hga.symm.trans hgb
    simpa using this
  have := getD_inj_of_nodup htn (show a.val < tiles.length by omega)
    (show b.val < tiles.length by omega) hteq
  exact Fin.ext this

/-! ### Destination index arithmetic -/

theorem destination_index_eq (σ : Int) (n i : Nat) (hi : i < n) :
    destination_index σ n i =
      if σ = 1 then (if i + 1 = n then 0 else i + 1)
      else (if i = 0 then n - 1 else i - 1) := by
  unfold destination_index
  by_cases hσ : σ = 1
  · rw [if_pos hσ, if_pos hσ]
    by_cases h : i + 1 = n
    · rw [if_pos h, h, Nat.mod_self]
    · rw [if_neg h, Nat.mod_eq_of_lt (by omega)]
  · rw [if_neg hσ, if_neg hσ]
    by_cases h : i = 0
    · subst h
      rw [if_pos rfl, Nat.zero_add]
      exact Nat.mod_eq_of_lt (by omega)
    · rw [if_neg h]
      have harith : i + n - 1 = (i - 1) + n := by omega
      rw [harith, Nat.add_mod_right]
      exact Nat.mod_eq_of_lt (by omega)

theorem destination_index_lt (σ : Int) (n i : Nat) (hi : i < n) :
    destination_index σ n i < n := by
  rw [destination_index_eq σ n i hi]
  split <;> split <;> omega

theorem destination_index_inj (σ : Int) {n i j : Nat} (hi : i < n) (hj : j < n)
    (h : destination_index σ n i = destination_index σ n j) : i = j := by
  rw [destination_index_eq σ n i hi, destination_index_eq σ n j hj] at h
  by_cases hσ : σ = 1 <;> simp only [hσ, if_true, if_false] at h <;>
    split_ifs at h <;> omega

/-- Every cycle position is the destination of exactly one source position. -/
theorem destination_index_surj (σ : Int) {n j : Nat} (hj : j < n) :
    ∃ i, i < n ∧ destination_index σ n i = j := by
  by_cases hσ : σ = 1
  · by_cases hj0 : j = 0
    · refine ⟨n - 1, by omega, ?_⟩
      rw [destination_index_eq σ n _ (by omega), if_pos hσ]
      split <;> omega
    · refine ⟨j - 1, by omega, ?_⟩
      rw [destination_index_eq σ n _ (by omega), if_pos hσ]
      split <;> omega
  · by_cases hjn : j + 1 = n
    · refine ⟨0, by omega, ?_⟩
      rw [destination_index_eq σ n _ (by omega), if_neg hσ]
      split <;> omega
    · refine ⟨j + 1, by omega, ?_⟩
      rw [destination_index_eq σ n _ (by omega), if_neg hσ]
      split <;> omega

/-! ### The permutation loop, characterized pointwise -/

theorem apply_cycle_go (cells tiles : List String) (Δ σ : Int)
    (hlen : tiles.length = cells.length)
    (hcn : cells.Nodup) (htn : tiles.Nodup) :
    ∀ (idxs : List Nat) (st : BoardState),
      (∀ i ∈ idxs, i < cells.length) → idxs.Nodup →
      (∀ i ∈ idxs,
          js_get ((idxs.foldl (move_step cells tiles Δ σ) st).cell_to_tile_id)
              (cells.getD (destination_index σ cells.length i) "")
            = some (tiles.getD i "")
        ∧ js_get ((idxs.foldl (move_step cells tiles Δ σ) st).tile_id_to_cell)
              (tiles.getD i "")
            = some (cells.getD (destination_index σ cells.length i) "")
        ∧ js_get ((idxs.foldl (move_step cells tiles Δ σ) st).tile_rot) (tiles.getD i "")
            = some (positive_mod ((js_get st.tile_rot (tiles.getD i "")).getD 0 - Δ * σ) 6))
      ∧ (∀ x, (∀ i ∈ idxs, x ≠ cells.getD (destination_index σ cells.length i) "") →
          js_get ((idxs.foldl (move_step cells tiles Δ σ) st).cell_to_tile_id) x
            = js_get st.cell_to_tile_id x)
      ∧ (∀ t, (∀ i ∈ idxs, t ≠ tiles.getD i "") →
          js_get ((idxs.foldl (move_step cells tiles Δ σ) st).tile_id_to_cell) t
            = js_get st.tile_id_to_cell t
          ∧ js_get ((idxs.foldl (move_step cells tiles Δ σ) st).tile_rot) t
            = js_get st.tile_rot t)
      ∧ (idxs.foldl (move_step cells tiles Δ σ) st).tile_home_cell = st.tile_home_cell := by
  intro idxs
  induction idxs with
  | nil =>
    intro st _ _
    exact ⟨by simp, fun x _ => rfl, fun t _ => ⟨rfl, rfl⟩, rfl⟩
  | cons i0 rest ih =>
    intro st hbound hnd
    have hi0 : i0 < cells.length := hbound i0 (by simp)
    have hn0 : 0 < cells.length := by omega
    have hi0t : i0 < tiles.length := by omega
    have hrestb : ∀ i ∈ rest, i < cells.length := fun i hi => hbound i (by simp [hi])
    have hndr : rest.Nodup := (List.nodup_cons.mp hnd).2
    have hi0r : i0 ∉ rest := (List.nodup_cons.mp hnd).1
    obtain ⟨IH1, IH2, IH3, IH4⟩ :=
      ih (move_step cells tiles Δ σ st i0) hrestb hndr
    have hc2t1 : (move_step cells tiles Δ σ st i0).cell_to_tile_id =
        js_set st.cell_to_tile_id
          (cells.getD (destination_index σ cells.length i0) "") (tiles.getD i0 "") := rfl
    have ht2c1 : (move_step cells tiles Δ σ st i0).tile_id_to_cell =
        js_set st.tile_id_to_cell (tiles.getD i0 "")
          (cells.getD (destination_index σ cells.length i0) "") := rfl
    have hrot1 : (move_step cells tiles Δ σ st i0).tile_rot =
        js_set st.tile_rot (tiles.getD i0 "")
          (positive_mod ((js_get st.tile_rot (tiles.getD i0 "")).getD 0 - Δ * σ) 6) := rfl
    have hhome1 : (move_step cells tiles Δ σ st i0).tile_home_cell = st.tile_home_cell := rfl
    -- the head's written keys are not touched by the remaining steps
    have hdest_ne : ∀ i ∈ rest,
        cells.getD (destination_index σ cells.length i0) "" ≠
        cells.getD (destination_index σ cells.length i) "" := by
      intro i hi heq
      have hd := getD_inj_of_nodup hcn
        (destination_index_lt σ cells.length i0 hi0)
        (destination_index_lt σ cells.length i (hrestb i hi)) heq
      have : i0 = i := destination_index_inj σ hi0 (hrestb i hi) hd
      exact hi0r (by rw [this]; exact hi)
    have htile_ne : ∀ i ∈ rest, tiles.getD i0 "" ≠ tiles.getD i "" := by
      intro i hi heq
      have hib : i < cells.length := hrestb i hi
      have : i0 = i := getD_inj_of_nodup htn hi0t (by omega) heq
      exact hi0r (by rw [this]; exact hi)
    refine ⟨?_, ?_, ?_, ?_⟩
    · intro i hi
      rcases List.mem_cons.mp hi with heq | hmem
      · subst heq
        refine ⟨?_, ?_, ?_⟩
        · rw [List.foldl_cons, IH2 _ hdest_ne, hc2t1, js_get_js_set, if_pos rfl]
        · rw [List.foldl_cons, (IH3 _ htile_ne).1, ht2c1, js_get_js_set, if_pos rfl]
        · rw [List.foldl_cons, (IH3 _ htile_ne).2, hrot1, js_get_js_set, if_pos rfl]
      · obtain ⟨J1, J2, J3⟩ := IH1 i hmem
        refine ⟨by rw [List.foldl_cons]; exact J1, by rw [List.foldl_cons]; exact J2, ?_⟩
        rw [List.foldl_cons, J3, hrot1, js_get_js_set,
          if_neg (fun hteq => (htile_ne i hmem) hteq.symm)]
    · intro x hx
      rw [List.foldl_cons, IH2 x (fun i hi => hx i (by simp [hi])), hc2t1, js_get_js_set,
        if_neg (hx i0 (by simp))]
    · intro t ht
      have hrec := IH3 t (fun i hi => ht i (by simp [hi]))
      constructor
      · rw [List.foldl_cons, hrec.1, ht2c1, js_get_js_set, if_neg (ht i0 (by simp))]
      · rw [List.foldl_cons, hrec.2, hrot1, js_get_js_set, if_neg (ht i0 (by simp))]
    · rw [List.foldl_cons, IH4, hhome1]

/-- Pointwise description of the permutation loop on well-formed input. -/
theorem apply_cycle_spec (cells tiles : List String) (Δ σ : Int) (st : BoardState)
    (hlen : tiles.length = cells.length) (hcn : cells.Nodup) (htn : tiles.Nodup) :
    (∀ i, i < cells.length →
        js_get (apply_cycle cells tiles Δ σ st).cell_to_tile_id
            (cells.getD (destination_index σ cells.length i) "") = some (tiles.getD i "")
      ∧ js_get (apply_cycle cells tiles Δ σ st).tile_id_to_cell (tiles.getD i "")
          = some (cells.getD (destination_index σ cells.length i) "")
      ∧ js_get (apply_cycle cells tiles Δ σ st).tile_rot (tiles.getD i "")
          = some (positive_mod ((js_get st.tile_rot (tiles.getD i "")).getD 0 - Δ * σ) 6))
    ∧ (∀ x, x ∉ cells →
        js_get (apply_cycle cells tiles Δ σ st).cell_to_tile_id x
          = js_get st.cell_to_tile_id x)
    ∧ (∀ t, t ∉ tiles →
        js_get (apply_cycle cells tiles Δ σ st).tile_id_to_cell t
          = js_get st.tile_id_to_cell t
        ∧ js_get (apply_cycle cells tiles Δ σ st).tile_rot t = js_get st.tile_rot t)
    ∧ (apply_cycle cells tiles Δ σ st).tile_home_cell = st.tile_home_cell := by
  obtain ⟨H1, H2, H3, H4⟩ := apply_cycle_go cells tiles Δ σ hlen hcn htn
    (List.range cells.length) st (fun i hi => List.mem_range.mp hi)
    (List.nodup_range cells.length)
  refine ⟨fun i hi => H1 i (List.mem_range.mpr hi), ?_, ?_, H4⟩
  · intro x hx
    refine H2 x ?_
    intro i hi hxeq
    exact hx (by
      rw [hxeq]
      exact getD_mem_of_lt (destination_index_lt σ cells.length i (List.mem_range.mp hi)))
  · intro t htm
    refine H3 t ?_
    intro i hi hteq
    exact htm (by
      rw [hteq]
      exact getD_mem_of_lt (by rw [hlen]; exact List.mem_range.mp hi))

/-! ### The spin pass -/

theorem apply_spins_nil (Δ σ : Int) (st : BoardState) :
    apply_spins [] Δ σ st = (st, []) := rfl

theorem apply_spins_single_none {k : String} (Δ σ : Int) {st : BoardState}
    (hg : js_get st.cell_to_tile_id k = none) :
    apply_spins [k] Δ σ st = (st, []) := by
  unfold apply_spins spin_step
  simp [hg]

theorem apply_spins_single_some {k tid : String} (Δ σ : Int) {st : BoardState}
    (hg : js_get st.cell_to_tile_id k = some tid) :
    (apply_spins [k] Δ σ st).2 = [tid]
    ∧ (apply_spins [k] Δ σ st).1.cell_to_tile_id = st.cell_to_tile_id
    ∧ (apply_spins [k] Δ σ st).1.tile_id_to_cell = st.tile_id_to_cell
    ∧ (apply_spins [k] Δ σ st).1.tile_home_cell = st.tile_home_cell
    ∧ (apply_spins [k] Δ σ st).1.tile_rot =
        js_set st.tile_rot tid
          (positive_mod ((js_get st.tile_rot tid).getD 0 - Δ * σ) 6) := by
  unfold apply_spins spin_step
  simp [hg]

/-! ### The solved state -/

theorem solved_fold_get (cells : List Cell) :
    ∀ (acc : BoardState) (x : String),
      js_get ((cells.foldl solved_insert acc).cell_to_tile_id) x =
        (if x ∈ cells.map cell_key then some x else js_get acc.cell_to_tile_id x)
      ∧ js_get ((cells.foldl solved_insert acc).tile_id_to_cell) x =
        (if x ∈ cells.map cell_key then some x else js_get acc.tile_id_to_cell x)
      ∧ js_get ((cells.foldl solved_insert acc).tile_rot) x =
        (if x ∈ cells.map cell_key then some 0 else js_get acc.tile_rot x)
      ∧ js_get ((cells.foldl solved_insert acc).tile_home_cell) x =
        (if x ∈ cells.map cell_key then some x else js_get acc.tile_home_cell x) := by
  induction cells with
  | nil => intro acc x; simp
  | cons c rest ih =>
    intro acc x
    rw [List.foldl_cons]
    obtain ⟨I1, I2, I3, I4⟩ := ih (solved_insert acc c) x
    have hc2t : js_get ((solved_insert acc c).cell_to_tile_id) x =
        if x = cell_key c then some (cell_key c) else js_get acc.cell_to_tile_id x :=
      js_get_js_set _ _ _ _
    have ht2c : js_get ((solved_insert acc c).tile_id_to_cell) x =
        if x = cell_key c then some (cell_key c) else js_get acc.tile_id_to_cell x :=
      js_get_js_set _ _ _ _
    have hrot : js_get ((solved_insert acc c).tile_rot) x =
        if x = cell_key c then some 0 else js_get acc.tile_rot x :=
      js_get_js_set _ _ _ _
    have hhome : js_get ((solved_insert acc c).tile_home_cell) x =
        if x = cell_key c then some (cell_key c) else js_get acc.tile_home_cell x :=
      js_get_js_set _ _ _ _
    by_cases hrest : x ∈ rest.map cell_key
    · refine ⟨?_, ?_, ?_, ?_⟩ <;>
        simp only [I1, I2, I3, I4, if_pos hrest, List.map_cons, List.mem_cons] <;>
        rw [if_pos (Or.inr hrest)]
    · by_cases hxc : x = cell_key c
      · refine ⟨?_, ?_, ?_, ?_⟩ <;>
          simp only [I1, I2, I3, I4, if_neg hrest, hc2t, ht2c, hrot, hhome,
            if_pos hxc, List.map_cons, List.mem_cons] <;>
          rw [if_pos (Or.inl hxc)] <;>
          first
          | rfl
          | rw [hxc]
      · refine ⟨?_, ?_, ?_, ?_⟩ <;>
          simp only [I1, I2, I3, I4, if_neg hrest, hc2t, ht2c, hrot, hhome,
            if_neg hxc, List.map_cons, List.mem_cons] <;>
          rw [if_neg (by
            intro hor
            rcases hor with h | h
            · exact hxc h
            · exact hrest h)]

/-- The spin pass never touches the three non-rotation maps, and every
rotation it writes is already reduced into [0,6). -/
theorem spin_foldl_general (Δ σ : Int) : ∀ (l : List String) (acc : BoardState × List String),
    (l.foldl (spin_step Δ σ) acc).1.cell_to_tile_id = acc.1.cell_to_tile_id
    ∧ (l.foldl (spin_step Δ σ) acc).1.tile_id_to_cell = acc.1.tile_id_to_cell
    ∧ (l.foldl (spin_step Δ σ) acc).1.tile_home_cell = acc.1.tile_home_cell
    ∧ (∀ t r, js_get (l.foldl (spin_step Δ σ) acc).1.tile_rot t = some r →
        js_get acc.1.tile_rot t = some r ∨ (0 ≤ r ∧ r < 6)) := by
  intro l
  induction l with
  | nil => intro acc; exact ⟨rfl, rfl, rfl, fun t r h => Or.inl h⟩
  | cons k rest ih =>
    intro acc
    rw [List.foldl_cons]
    cases hg : js_get acc.1.cell_to_tile_id k with
    | none =>
      have hstep : spin_step Δ σ acc k = acc := by
        unfold spin_step
        rw [hg]
      rw [hstep]
      exact ih acc
    | some tid =>
      obtain ⟨I1, I2, I3, I4⟩ := ih (spin_step Δ σ acc k)
      have hstep1 : (spin_step Δ σ acc k).1.cell_to_tile_id = acc.1.cell_to_tile_id := by
        unfold spin_step
        rw [hg]
      have hstep2 : (spin_step Δ σ acc k).1.tile_id_to_cell = acc.1.tile_id_to_cell := by
        unfold spin_step
        rw [hg]
      have hstep3 : (spin_step Δ σ acc k).1.tile_home_cell = acc.1.tile_home_cell := by
        unfold spin_step
        rw [hg]
      have hstep4 : (spin_step Δ σ acc k).1.tile_rot =
          js_set acc.1.tile_rot tid
            (positive_mod ((js_get acc.1.tile_rot tid).getD 0 - Δ * σ) 6) := by
        unfold spin_step
        rw [hg]
      refine ⟨I1.trans hstep1, I2.trans hstep2, I3.trans hstep3, ?_⟩
      intro t r h
      rcases I4 t r h with h' | h'
      · rw [hstep4, js_get_js_set] at h'
        by_cases htid : t = tid
        · rw [if_pos htid] at h'
          right
          have hpm := Option.some.inj h'
          rw [← hpm]
          exact ⟨positive_mod_nonneg _, positive_mod_lt _⟩
        · rw [if_neg htid] at h'
          exact Or.inl h'
      · exact Or.inr h'

/-- Every entry of the solved state's home map is of the form (k, k) with k a
cell key of the grid. -/
theorem solved_fold_home_entries (cells : List Cell) :
    ∀ (acc : BoardState),
      (∀ p ∈ acc.tile_home_cell, p.2 = p.1 ∧ p.1 ∈ cells.map cell_key ∨
        p ∈ acc.tile_home_cell) →
      ∀ p ∈ (cells.foldl solved_insert acc).tile_home_cell,
        (p.2 = p.1 ∧ p.1 ∈ cells.map cell_key) ∨ p ∈ acc.tile_home_cell := by
  induction cells with
  | nil => intro acc _ p hp; exact Or.inr hp
  | cons c rest ih =>
    intro acc _ p hp
    rw [List.foldl_cons] at hp
    have := ih (solved_insert acc c) (fun p hp => Or.inr hp) p hp
    rcases this with ⟨h2, hmem⟩ | hmem
    · exact Or.inl ⟨h2, by simp [hmem]⟩
    · rcases mem_js_set _ _ _ _ hmem with h | h
      · exact Or.inr h
      · refine Or.inl ⟨by rw [h], by rw [h]; simp⟩

/-! ### The BoardState invariant and the shape of builder instances -/

/-- The `BoardState` data-model invariant (spec section 3): `cell→tile` and
`tile→cell` are exact mutual inverses over the same cell/tile universe, and
every stored rotation value is in [0,6). -/
def StateInv (state : BoardState) : Prop :=
  (∀ c t, js_get state.cell_to_tile_id c = some t ↔
    js_get state.tile_id_to_cell t = some c)
  ∧ (∀ t r, js_get state.tile_rot t = some r → 0 ≤ r ∧ r < 6)

theorem apply_move_of_resolve_ok {st : BoardState} {inst : AnchorInstance} {σ : Int}
    {tiles : List String} (hres : resolve_cycle st inst.cells = Except.ok tiles) :
    apply_move st inst σ =
      ((apply_spins inst.spin_cells inst.rotation_steps_cw σ
          (apply_cycle inst.cells tiles inst.rotation_steps_cw σ st)).1,
        Except.ok (dedup_keep_first
          (tiles ++ (apply_spins inst.spin_cells inst.rotation_steps_cw σ
            (apply_cycle inst.cells tiles inst.rotation_steps_cw σ st)).2))) := by
  unfold apply_move
  rw [hres]

theorem apply_move_of_resolve_error {st : BoardState} {inst : AnchorInstance} {σ : Int}
    {e : String} (hres : resolve_cycle st inst.cells = Except.error e) :
    apply_move st inst σ = (st, Except.error e) := by
  unfold apply_move
  rw [hres]

/-- Structure of every instance emitted by `build_cell_operator_instances`. -/
theorem mem_build_cell_operator_instances {grid : Grid} {op : String} {dirs : List Int}
    {steps : Int} {inst : AnchorInstance}
    (h : inst ∈ build_cell_operator_instances grid op dirs steps) :
    ∃ c ∈ grid.all_cells,
      all_cells_exist grid (collect_direction_cells c dirs) = true ∧
      inst.cells = (collect_direction_cells c dirs).map cell_key ∧
      inst.spin_cells = [cell_key c] ∧
      inst.rotation_steps_cw = steps := by
  unfold build_cell_operator_instances at h
  rcases List.mem_filterMap.mp h with ⟨c, hc, hfc⟩
  by_cases hex : all_cells_exist grid (collect_direction_cells c dirs) = true
  · rw [if_pos hex] at hfc
    have hrec := Option.some.inj hfc
    exact ⟨c, hc, hex, by rw [← hrec], by rw [← hrec], by rw [← hrec]⟩
  · rw [if_neg hex] at hfc
    exact absurd hfc (by simp)

/-- The key list of a cell-operator cycle is duplicate-free. -/
theorem cell_op_cells_nodup (c : Cell) {dirs : List Int}
    (hb : ∀ d ∈ dirs, 0 ≤ d ∧ d < 6) (hnd : dirs.Nodup) :
    (((collect_direction_cells c dirs).map cell_key)).Nodup := by
  unfold collect_direction_cells
  rw [List.map_map]
  refine List.Nodup.map_on ?_ hnd
  intro d1 hd1 d2 hd2 heq
  by_contra hne
  exact neighbor_cell_inj c d1 d2 (hb d1 hd1).1 (hb d1 hd1).2 (hb d2 hd2).1 (hb d2 hd2).2
    hne (cell_key_injective heq)

/-- The anchor's own key is not among a cell-operator cycle's keys. -/
theorem cell_op_spin_not_mem (c : Cell) {dirs : List Int}
    (hb : ∀ d ∈ dirs, 0 ≤ d ∧ d < 6) :
    cell_key c ∉ (collect_direction_cells c dirs).map cell_key := by
  unfold collect_direction_cells
  rw [List.map_map]
  intro hmem
  rcases List.mem_map.mp hmem with ⟨d, hd, heq⟩
  exact neighbor_cell_ne_self c d (hb d hd).1 (hb d hd).2 (cell_key_injective heq)

/-- Under the invariant, the tile sitting at a cell outside the cycle is not
one of the cycle's resolved tiles. -/
theorem spin_tile_not_in_tiles {st : BoardState} {cells tiles : List String}
    {k B : String}
    (hinv : ∀ c t, js_get st.cell_to_tile_id c = some t ↔
      js_get st.tile_id_to_cell t = some c)
    (hres : resolve_cycle st cells = Except.ok tiles)
    (hk : k ∉ cells)
    (hB : js_get st.cell_to_tile_id k = some B) : B ∉ tiles := by
  intro hmem
  obtain ⟨hlen, hpt⟩ := resolve_cycle_spec hres
  obtain ⟨i, hi, hBi⟩ := mem_getD_of_mem hmem
  have hic : i < cells.length := by omega
  have h1 := hpt i hic
  rw [hBi] at h1
  have h2 := (hinv _ _).mp h1
  have h3 := (hinv _ _).mp hB
  have : cells.getD i "" = k := by
    have := h2.symm.trans h3
    simpa using this
  exact hk (this ▸ getD_mem_of_lt hic)

/-- Full pointwise description of one `apply_move` on an instance shaped like
every builder output: duplicate-free cycle keys and either no spin cell or a
single spin cell outside the cycle. -/
theorem apply_move_builder_spec
    (st : BoardState) (inst : AnchorInstance) (σ : Int) (tiles : List String)
    (hres : resolve_cycle st inst.cells = Except.ok tiles)
    (htn : tiles.Nodup) (hcn : inst.cells.Nodup)
    (hspin : inst.spin_cells = [] ∨ ∃ k0, inst.spin_cells = [k0] ∧ k0 ∉ inst.cells) :
    (∀ i, i < inst.cells.length →
        js_get (apply_move st inst σ).1.cell_to_tile_id
            (inst.cells.getD (destination_index σ inst.cells.length i) "")
          = some (tiles.getD i ""))
    ∧ (∀ x, x ∉ inst.cells →
        js_get (apply_move st inst σ).1.cell_to_tile_id x = js_get st.cell_to_tile_id x)
    ∧ (∀ i, i < inst.cells.length →
        js_get (apply_move st inst σ).1.tile_id_to_cell (tiles.getD i "")
          = some (inst.cells.getD (destination_index σ inst.cells.length i) ""))
    ∧ (∀ t, t ∉ tiles →
        js_get (apply_move st inst σ).1.tile_id_to_cell t = js_get st.tile_id_to_cell t)
    ∧ (∀ i, i < inst.cells.length →
        (∀ k0 ∈ inst.spin_cells, js_get st.cell_to_tile_id k0 ≠ some (tiles.getD i "")) →
        js_get (apply_move st inst σ).1.tile_rot (tiles.getD i "")
          = some (positive_mod ((js_get st.tile_rot (tiles.getD i "")).getD 0
              - inst.rotation_steps_cw * σ) 6))
    ∧ (∀ k0 ∈ inst.spin_cells, ∀ B, js_get st.cell_to_tile_id k0 = some B → B ∉ tiles →
        js_get (apply_move st inst σ).1.tile_rot B
          = some (positive_mod ((js_get st.tile_rot B).getD 0
              - inst.rotation_steps_cw * σ) 6))
    ∧ (∀ t, t ∉ tiles →
        (∀ k0 ∈ inst.spin_cells, js_get st.cell_to_tile_id k0 ≠ some t) →
        js_get (apply_move st inst σ).1.tile_rot t = js_get st.tile_rot t)
    ∧ (apply_move st inst σ).1.tile_home_cell = st.tile_home_cell := by
  have hlen : tiles.length = inst.cells.length := (resolve_cycle_spec hres).1
  obtain ⟨C1, C2, C3, C4⟩ :=
    apply_cycle_spec inst.cells tiles inst.rotation_steps_cw σ st hlen hcn htn
  rw [apply_move_of_resolve_ok hres]
  rcases hspin with hnil | ⟨k0, hk0, hk0n⟩
  · rw [hnil]
    rw [apply_spins_nil]
    refine ⟨fun i hi => (C1 i hi).1, C2, fun i hi => (C1 i hi).2.1, fun t ht => (C3 t ht).1,
      fun i hi _ => (C1 i hi).2.2, ?_, fun t ht _ => (C3 t ht).2, C4⟩
    intro k0 hk0
    exact absurd hk0 (by simp)
  · rw [hk0]
    have hocc0 : js_get (apply_cycle inst.cells tiles inst.rotation_steps_cw σ st).cell_to_tile_id k0
        = js_get st.cell_to_tile_id k0 := C2 k0 hk0n
    cases hB : js_get st.cell_to_tile_id k0 with
    | none =>
      rw [apply_spins_single_none inst.rotation_steps_cw σ (hocc0.trans hB)]
      refine ⟨fun i hi => (C1 i hi).1, C2, fun i hi => (C1 i hi).2.1, fun t ht => (C3 t ht).1,
        fun i hi _ => (C1 i hi).2.2, ?_, fun t ht _ => (C3 t ht).2, C4⟩
      intro k0' hk0' B hgB
      have : k0' = k0 := by simpa using hk0'
      rw [this, hB] at hgB
      exact absurd hgB (by simp)
    | some B =>
      obtain ⟨S2, Sc2t, St2c, Shome, Srot⟩ :=
        apply_spins_single_some inst.rotation_steps_cw σ (hocc0.trans hB)
      have hBrot : js_get (apply_cycle inst.cells tiles inst.rotation_steps_cw σ st).tile_rot B
          = js_get st.tile_rot B → True := fun _ => trivial
      refine ⟨?_, ?_, ?_, ?_, ?_, ?_, ?_, ?_⟩
      · intro i hi
        rw [Sc2t]
        exact (C1 i hi).1
      · intro x hx
        rw [Sc2t]
        exact C2 x hx
      · intro i hi
        rw [St2c]
        exact (C1 i hi).2.1
      · intro t ht
        rw [St2c]
        exact (C3 t ht).1
      · intro i hi hno
        have hBne : B ≠ tiles.getD i "" := by
          intro hcontra
          exact hno k0 (by simp) (by rw [hB, hcontra])
        rw [Srot, js_get_js_set, if_neg (fun hcontra => hBne hcontra.symm)]
        exact (C1 i hi).2.2
      · intro k0' hk0' B' hgB' hBn'
        have hkeq : k0' = k0 := by simpa using hk0'
        rw [hkeq, hB] at hgB'
        have hBeq : B' = B := by simpa using hgB'.symm
        subst hBeq
        rw [Srot, js_get_js_set, if_pos rfl]
        have : js_get (apply_cycle inst.cells tiles inst.rotation_steps_cw σ st).tile_rot B'
            = js_get st.tile_rot B' := (C3 B' hBn').2
        rw [this]
      · intro t ht hno
        have hBne : t ≠ B := by
          intro hcontra
          exact hno k0 (by simp) (by rw [hB, hcontra])
        rw [Srot, js_get_js_set, if_neg hBne]
        exact (C3 t ht).2
      · rw [Shome]
        exact C4

/-! ### The vertex builder's dedup fold -/

/-- The triple {c, neighbor(c,i), neighbor(c,(i+1) mod 6)} lies fully inside
the grid. -/
def vertex_triple_ok (grid : Grid) (c : Cell) (i : Nat) : Prop :=
  grid_has_cell grid c = true ∧
  grid_has_cell grid (neighbor_cell c (i : Int)) = true ∧
  grid_has_cell grid (neighbor_cell c (((i + 1) % 6 : Nat) : Int)) = true

instance (grid : Grid) (c : Cell) (i : Nat) : Decidable (vertex_triple_ok grid c i) :=
  inferInstanceAs (Decidable (_ ∧ _ ∧ _))

/-- The instance the vertex builder emits when it first discovers the triple
anchored at `c` in direction `i`. -/
def vertex_inst_of (c : Cell) (i : Nat) : AnchorInstance :=
  { operator_id := "vertex3_120"
    anchor_id := vtx_anchor_id c (neighbor_cell c (i : Int))
      (neighbor_cell c (((i + 1) % 6 : Nat) : Int))
    cells := [cell_key c, cell_key (neighbor_cell c (i : Int)),
      cell_key (neighbor_cell c (((i + 1) % 6 : Nat) : Int))]
    spin_cells := []
    rotation_steps_cw := 2 }

theorem vertex_step_invalid {grid : Grid} {acc : List AnchorInstance × List String}
    {p : Cell × Nat}
    (h : ¬ all_cells_exist grid [p.1, neighbor_cell p.1 (p.2 : Int),
      neighbor_cell p.1 (((p.2 + 1) % 6 : Nat) : Int)] = true) :
    vertex_step grid acc p = acc := by
  unfold vertex_step
  rw [if_neg h]

theorem vertex_step_seen {grid : Grid} {acc : List AnchorInstance × List String}
    {p : Cell × Nat}
    (hv : all_cells_exist grid [p.1, neighbor_cell p.1 (p.2 : Int),
      neighbor_cell p.1 (((p.2 + 1) % 6 : Nat) : Int)] = true)
    (hs : acc.2.contains (vertex_inst_of p.1 p.2).anchor_id = true) :
    vertex_step grid acc p = acc := by
  unfold vertex_step
  rw [if_pos hv]
  exact if_pos hs

theorem vertex_step_new {grid : Grid} {acc : List AnchorInstance × List String}
    {p : Cell × Nat}
    (hv : all_cells_exist grid [p.1, neighbor_cell p.1 (p.2 : Int),
      neighbor_cell p.1 (((p.2 + 1) % 6 : Nat) : Int)] = true)
    (hs : ¬ acc.2.contains (vertex_inst_of p.1 p.2).anchor_id = true) :
    vertex_step grid acc p =
      (acc.1 ++ [vertex_inst_of p.1 p.2], acc.2 ++ [(vertex_inst_of p.1 p.2).anchor_id]) := by
  unfold vertex_step
  rw [if_pos hv]
  exact if_neg hs

theorem vertex_triple_ok_of_exist {grid : Grid} {p : Cell × Nat}
    (hv : all_cells_exist grid [p.1, neighbor_cell p.1 (p.2 : Int),
      neighbor_cell p.1 (((p.2 + 1) % 6 : Nat) : Int)] = true) :
    vertex_triple_ok grid p.1 p.2 := by
  unfold all_cells_exist at hv
  rw [List.all_eq_true] at hv
  exact ⟨hv _ (by simp), hv _ (by simp), hv _ (by simp)⟩

theorem exist_of_vertex_triple_ok {grid : Grid} {p : Cell × Nat}
    (h : vertex_triple_ok grid p.1 p.2) :
    all_cells_exist grid [p.1, neighbor_cell p.1 (p.2 : Int),
      neighbor_cell p.1 (((p.2 + 1) % 6 : Nat) : Int)] = true := by
  unfold all_cells_exist
  rw [List.all_eq_true]
  intro c hc
  rcases h with ⟨h1, h2, h3⟩
  rcases List.mem_cons.mp hc with rfl | hc'
  · exact h1
  rcases List.mem_cons.mp hc' with rfl | hc''
  · exact h2
  rcases List.mem_cons.mp hc'' with rfl | hc'''
  · exact h3
  · exact absurd hc''' (by simp)

/-- Combined invariant of the vertex builder's fold: every emitted instance
comes from an in-grid triple, anchor ids are pairwise distinct and in sync
with the dedup set, emitted instances persist, and every valid candidate's
canonical id ends up in the dedup set. -/
theorem vertex_fold_spec (grid : Grid) : ∀ (pairs : List (Cell × Nat))
    (acc : List AnchorInstance × List String),
    (∀ inst ∈ acc.1, ∃ c : Cell, ∃ i : Nat, i < 6 ∧ vertex_triple_ok grid c i ∧
      inst = vertex_inst_of c i) →
    ((acc.1.map (fun inst => inst.anchor_id)).Nodup) →
    (∀ s ∈ acc.2, ∃ inst ∈ acc.1, inst.anchor_id = s) →
    (∀ inst ∈ acc.1, inst.anchor_id ∈ acc.2) →
    (∀ p ∈ pairs, p.2 < 6) →
    (∀ inst ∈ (pairs.foldl (vertex_step grid) acc).1,
      ∃ c : Cell, ∃ i : Nat, i < 6 ∧ vertex_triple_ok grid c i ∧ inst = vertex_inst_of c i)
    ∧ (((pairs.foldl (vertex_step grid) acc).1.map (fun inst => inst.anchor_id)).Nodup)
    ∧ (∀ s ∈ (pairs.foldl (vertex_step grid) acc).2,
        ∃ inst ∈ (pairs.foldl (vertex_step grid) acc).1, inst.anchor_id = s)
    ∧ (∀ inst ∈ (pairs.foldl (vertex_step grid) acc).1,
        inst.anchor_id ∈ (pairs.foldl (vertex_step grid) acc).2)
    ∧ (∀ p ∈ pairs, vertex_triple_ok grid p.1 p.2 →
        (vertex_inst_of p.1 p.2).anchor_id ∈ (pairs.foldl (vertex_step grid) acc).2)
    ∧ (∀ inst ∈ acc.1, inst ∈ (pairs.foldl (vertex_step grid) acc).1)
    ∧ (∀ s ∈ acc.2, s ∈ (pairs.foldl (vertex_step grid) acc).2) := by
  intro pairs
  induction pairs with
  | nil =>
    intro acc h1 h2 h3 h4 _
    exact ⟨h1, h2, h3, h4, fun p hp => absurd hp (by simp), fun inst h => h, fun s h => h⟩
  | cons p rest ih =>
    intro acc h1 h2 h3 h4 h5
    rw [List.foldl_cons]
    have hp6 : p.2 < 6 := h5 p (by simp)
    have hrest6 : ∀ q ∈ rest, q.2 < 6 := fun q hq => h5 q (by simp [hq])
    by_cases hv : all_cells_exist grid [p.1, neighbor_cell p.1 (p.2 : Int),
        neighbor_cell p.1 (((p.2 + 1) % 6 : Nat) : Int)] = true
    · by_cases hs : acc.2.contains (vertex_inst_of p.1 p.2).anchor_id = true
      · rw [vertex_step_seen hv hs]
        obtain ⟨G1, G2, G3, G4, G5, G6, G7⟩ := ih acc h1 h2 h3 h4 hrest6
        refine ⟨G1, G2, G3, G4, ?_, G6, G7⟩
        intro q hq hqok
        rcases List.mem_cons.mp hq with rfl | hq'
        · exact G7 _ (by simpa using hs)
        · exact G5 q hq' hqok
      · rw [vertex_step_new hv hs]
        have hnew1 : ∀ inst ∈ acc.1 ++ [vertex_inst_of p.1 p.2],
            ∃ c : Cell, ∃ i : Nat, i < 6 ∧ vertex_triple_ok grid c i ∧
              inst = vertex_inst_of c i := by
          intro inst hinst
          rcases List.mem_append.mp hinst with h | h
          · exact h1 inst h
          · exact ⟨p.1, p.2, hp6, vertex_triple_ok_of_exist hv, by simpa using h⟩
        have hnew2 : (((acc.1 ++ [vertex_inst_of p.1 p.2]).map
            (fun inst => inst.anchor_id)).Nodup) := by
          rw [List.map_append]
          rw [List.nodup_append]
          refine ⟨h2, by simp, ?_⟩
          intro s hsm
          simp only [List.map_cons, List.map_nil, List.mem_singleton]
          intro hcontra
          rcases List.mem_map.mp hsm with ⟨inst, hinst, hid⟩
          have : (vertex_inst_of p.1 p.2).anchor_id ∈ acc.2 := by
            rw [← hcontra, ← hid]
            exact h4 inst hinst
          exact hs (by simpa using this)
        have hnew3 : ∀ s ∈ acc.2 ++ [(vertex_inst_of p.1 p.2).anchor_id],
            ∃ inst ∈ acc.1 ++ [vertex_inst_of p.1 p.2], inst.anchor_id = s := by
          intro s hsm
          rcases List.mem_append.mp hsm with h | h
          · obtain ⟨inst, hinst, hid⟩ := h3 s h
            exact ⟨inst, List.mem_append.mpr (Or.inl hinst), hid⟩
          · refine ⟨vertex_inst_of p.1 p.2, List.mem_append.mpr (Or.inr (by simp)), ?_⟩
            have hse : s = (vertex_inst_of p.1 p.2).anchor_id := by simpa using h
            exact hse.symm
        have hnew4 : ∀ inst ∈ acc.1 ++ [vertex_inst_of p.1 p.2],
            inst.anchor_id ∈ acc.2 ++ [(vertex_inst_of p.1 p.2).anchor_id] := by
          intro inst hinst
          rcases List.mem_append.mp hinst with h | h
          · exact List.mem_append.mpr (Or.inl (h4 inst h))
          · refine List.mem_append.mpr (Or.inr ?_)
            simp only [List.mem_singleton]
            rw [show inst = vertex_inst_of p.1 p.2 by simpa using h]
        obtain ⟨G1, G2, G3, G4, G5, G6, G7⟩ :=
          ih (acc.1 ++ [vertex_inst_of p.1 p.2],
            acc.2 ++ [(vertex_inst_of p.1 p.2).anchor_id]) hnew1 hnew2 hnew3 hnew4 hrest6
        refine ⟨G1, G2, G3, G4, ?_, ?_, ?_⟩
        · intro q hq hqok
          rcases List.mem_cons.mp hq with rfl | hq'
          · exact G7 _ (List.mem_append.mpr (Or.inr (by simp)))
          · exact G5 q hq' hqok
        · intro inst hinst
          exact G6 inst (List.mem_append.mpr (Or.inl hinst))
        · intro s hsm
          exact G7 s (List.mem_append.mpr (Or.inl hsm))
    · rw [vertex_step_invalid hv]
      obtain ⟨G1, G2, G3, G4, G5, G6, G7⟩ := ih acc h1 h2 h3 h4 hrest6
      refine ⟨G1, G2, G3, G4, ?_, G6, G7⟩
      intro q hq hqok
      rcases List.mem_cons.mp hq with rfl | hq'
      · exact absurd (exist_of_vertex_triple_ok hqok) hv
      · exact G5 q hq' hqok

theorem mem_vertex_candidate_pairs {grid : Grid} {p : Cell × Nat} :
    p ∈ vertex_candidate_pairs grid ↔ p.1 ∈ grid.all_cells ∧ p.2 < 6 := by
  unfold vertex_candidate_pairs
  rw [List.mem_flatMap]
  constructor
  · rintro ⟨c, hc, hp⟩
    rcases List.mem_map.mp hp with ⟨i, hi, hpi⟩
    rw [← hpi]
    exact ⟨hc, List.mem_range.mp hi⟩
  · rintro ⟨hc, hi⟩
    exact ⟨p.1, hc, List.mem_map.mpr ⟨p.2, List.mem_range.mpr hi, by simp⟩⟩

/-- Everything the claims need about `build_vertex_instances`. -/
theorem build_vertex_instances_spec (grid : Grid) :
    (∀ inst ∈ build_vertex_instances grid,
      ∃ c : Cell, ∃ i : Nat, i < 6 ∧ vertex_triple_ok grid c i ∧ inst = vertex_inst_of c i)
    ∧ (((build_vertex_instances grid).map (fun inst => inst.anchor_id)).Nodup)
    ∧ (∀ c ∈ grid.all_cells, ∀ i : Nat, i < 6 → vertex_triple_ok grid c i →
        ∃ inst ∈ build_vertex_instances grid,
          inst.anchor_id = (vertex_inst_of c i).anchor_id) := by
  have hpairs : ∀ p ∈ vertex_candidate_pairs grid, p.2 < 6 :=
    fun p hp => (mem_vertex_candidate_pairs.mp hp).2
  obtain ⟨G1, G2, G3, G4, G5, G6, G7⟩ :=
    vertex_fold_spec grid (vertex_candidate_pairs grid) ([], [])
      (fun inst h => absurd h (by simp)) (by simp)
      (fun s h => absurd h (by simp)) (fun inst h => absurd h (by simp)) hpairs
  refine ⟨G1, G2, ?_⟩
  intro c hc i hi hok
  have hpmem : ((c, i) : Cell × Nat) ∈ vertex_candidate_pairs grid :=
    mem_vertex_candidate_pairs.mpr ⟨hc, hi⟩
  have hid := G5 (c, i) hpmem hok
  exact G3 _ hid

theorem vertex_inst_cells_nodup (c : Cell) (i : Nat) (hi : i < 6) :
    (vertex_inst_of c i).cells.Nodup := by
  have hi0 : (0 : Int) ≤ (i : Int) := Int.natCast_nonneg i
  have hi6 : (i : Int) < 6 := by exact_mod_cast hi
  have hj0 : (0 : Int) ≤ (((i + 1) % 6 : Nat) : Int) := Int.natCast_nonneg _
  have hj6 : (((i + 1) % 6 : Nat) : Int) < 6 := by
    have : (i + 1) % 6 < 6 := Nat.mod_lt _ (by norm_num)
    exact_mod_cast this
  have hij : (i : Int) ≠ (((i + 1) % 6 : Nat) : Int) := by
    have : i ≠ (i + 1) % 6 := by omega
    exact_mod_cast this
  have hne1 : neighbor_cell c (i : Int) ≠ c := neighbor_cell_ne_self c _ hi0 hi6
  have hne2 : neighbor_cell c (((i + 1) % 6 : Nat) : Int) ≠ c :=
    neighbor_cell_ne_self c _ hj0 hj6
  have hne3 : neighbor_cell c (i : Int) ≠ neighbor_cell c (((i + 1) % 6 : Nat) : Int) :=
    neighbor_cell_inj c _ _ hi0 hi6 hj0 hj6 hij
  have hk1 : cell_key c ≠ cell_key (neighbor_cell c (i : Int)) :=
    fun h => hne1 (cell_key_injective h.symm)
  have hk2 : cell_key c ≠ cell_key (neighbor_cell c (((i + 1) % 6 : Nat) : Int)) :=
    fun h => hne2 (cell_key_injective h.symm)
  have hk3 : cell_key (neighbor_cell c (i : Int)) ≠
      cell_key (neighbor_cell c (((i + 1) % 6 : Nat) : Int)) :=
    fun h => hne3 (cell_key_injective h)
  have hk2' := hk2
  have hk3' := hk3
  push_cast at hk2' hk3'
  unfold vertex_inst_of
  simp [List.nodup_cons, hk1, hk2, hk3, hk2', hk3']

theorem positive_mod_self {r : Int} (h0 : 0 ≤ r) (h6 : r < 6) : positive_mod r 6 = r := by
  unfold positive_mod
  omega

theorem positive_mod_shift (x y : Int) :
    positive_mod (positive_mod x 6 + y) 6 = positive_mod (x + y) 6 := by
  unfold positive_mod
  omega

theorem positive_mod_shift_sub (x y : Int) :
    positive_mod (positive_mod x 6 - y) 6 = positive_mod (x - y) 6 := by
  unfold positive_mod
  omega

/-- The structural facts common to every instance any operator builder emits:
duplicate-free cycle keys, a spin list that is empty or the anchor key alone
(never a cycle key), and the two (rotation step, cycle length) profiles. -/
theorem builder_instance_shape {g : Grid} {op : String} {insts : List AnchorInstance}
    {inst : AnchorInstance}
    (hbuild : build_anchor_instances g op = Except.ok insts) (hmem : inst ∈ insts) :
    inst.cells.Nodup
    ∧ (inst.spin_cells = [] ∨ ∃ k0, inst.spin_cells = [k0] ∧ k0 ∉ inst.cells)
    ∧ ((inst.rotation_steps_cw = 1 ∧ inst.cells.length = 6)
      ∨ (inst.rotation_steps_cw = 2 ∧ inst.cells.length = 3)) := by
  unfold build_anchor_instances at hbuild
  split_ifs at hbuild with h1 h2 h3 h4
  · -- ring6_60
    have hin : inst ∈ build_cell_operator_instances g op [0, 1, 2, 3, 4, 5] 1 := by
      rw [Except.ok.inj hbuild]
      exact hmem
    obtain ⟨c, hc, hex, hcells, hspin, hsteps⟩ := mem_build_cell_operator_instances hin
    have hb : ∀ d ∈ ([0, 1, 2, 3, 4, 5] : List Int), 0 ≤ d ∧ d < 6 := by decide
    have hnd : ([0, 1, 2, 3, 4, 5] : List Int).Nodup := by decide
    refine ⟨by rw [hcells]; exact cell_op_cells_nodup c hb hnd,
      Or.inr ⟨cell_key c, hspin, ?_⟩, Or.inl ⟨hsteps, ?_⟩⟩
    · rw [hcells]
      exact cell_op_spin_not_mem c hb
    · rw [hcells]
      simp [collect_direction_cells]
  · -- alt3_even_120
    have hin : inst ∈ build_cell_operator_instances g op [0, 2, 4] 2 := by
      rw [Except.ok.inj hbuild]
      exact hmem
    obtain ⟨c, hc, hex, hcells, hspin, hsteps⟩ := mem_build_cell_operator_instances hin
    have hb : ∀ d ∈ ([0, 2, 4] : List Int), 0 ≤ d ∧ d < 6 := by decide
    have hnd : ([0, 2, 4] : List Int).Nodup := by decide
    refine ⟨by rw [hcells]; exact cell_op_cells_nodup c hb hnd,
      Or.inr ⟨cell_key c, hspin, ?_⟩, Or.inr ⟨hsteps, ?_⟩⟩
    · rw [hcells]
      exact cell_op_spin_not_mem c hb
    · rw [hcells]
      simp [collect_direction_cells]
  · -- alt3_odd_120
    have hin : inst ∈ build_cell_operator_instances g op [1, 3, 5] 2 := by
      rw [Except.ok.inj hbuild]
      exact hmem
    obtain ⟨c, hc, hex, hcells, hspin, hsteps⟩ := mem_build_cell_operator_instances hin
    have hb : ∀ d ∈ ([1, 3, 5] : List Int), 0 ≤ d ∧ d < 6 := by decide
    have hnd : ([1, 3, 5] : List Int).Nodup := by decide
    refine ⟨by rw [hcells]; exact cell_op_cells_nodup c hb hnd,
      Or.inr ⟨cell_key c, hspin, ?_⟩, Or.inr ⟨hsteps, ?_⟩⟩
    · rw [hcells]
      exact cell_op_spin_not_mem c hb
    · rw [hcells]
      simp [collect_direction_cells]
  · -- vertex3_120
    have hin : inst ∈ build_vertex_instances g := by
      rw [Except.ok.inj hbuild]
      exact hmem
    obtain ⟨c, i, hi, hok, hshape⟩ := (build_vertex_instances_spec g).1 inst hin
    subst hshape
    refine ⟨vertex_inst_cells_nodup c i hi, Or.inl rfl, Or.inr ⟨rfl, rfl⟩⟩

/-! ### Claim C9 -/

/-- C9: for every valid grid (W ≥ 1, odd H), `create_solved_state` assigns to
every cell a tile whose identity, home and rotation are the cell key, the
cell key and 0, and `is_solved` accepts the result. -/
theorem C9_create_solved_state (W H : Nat) (g : Grid) (hW : 1 ≤ W) (hodd : H % 2 = 1)
    (hg : create_grid W H = Except.ok g) :
    (∀ c ∈ g.all_cells,
      js_get (create_solved_state g).cell_to_tile_id (cell_key c) = some (cell_key c)
      ∧ js_get (create_solved_state g).tile_home_cell (cell_key c) = some (cell_key c)
      ∧ js_get (create_solved_state g).tile_rot (cell_key c) = some 0)
    ∧ is_solved (create_solved_state g) = true := by
  constructor
  · intro c hc
    have hkey : cell_key c ∈ g.all_cells.map cell_key := List.mem_map.mpr ⟨c, hc, rfl⟩
    obtain ⟨H1, H2, H3, H4⟩ := solved_fold_get g.all_cells
      { cell_to_tile_id := [], tile_id_to_cell := [], tile_rot := [], tile_home_cell := [] }
      (cell_key c)
    unfold create_solved_state
    exact ⟨by rw [H1, if_pos hkey], by rw [H4, if_pos hkey], by rw [H3, if_pos hkey]⟩
  · unfold is_solved
    rw [List.all_eq_true]
    intro p hp
    have hent := solved_fold_home_entries g.all_cells
      { cell_to_tile_id := [], tile_id_to_cell := [], tile_rot := [], tile_home_cell := [] }
      (fun q hq => Or.inr hq) p (by exact hp)
    rcases hent with ⟨h21, hkey⟩ | habs
    · obtain ⟨H1, H2, H3, H4⟩ := solved_fold_get g.all_cells
        { cell_to_tile_id := [], tile_id_to_cell := [], tile_rot := [], tile_home_cell := [] }
        p.1
      have ht2c : js_get (create_solved_state g).tile_id_to_cell p.1 = some p.1 := by
        unfold create_solved_state
        rw [H2, if_pos hkey]
      have hrot : js_get (create_solved_state g).tile_rot p.1 = some 0 := by
        unfold create_solved_state
        rw [H3, if_pos hkey]
      simp [ht2c, hrot, h21]
    · exact absurd habs (by simp)

/-! ### Claim C6 -/

/-- C6: `apply_move` fails with the missing-tile error exactly when some
cycle cell is unoccupied, and a failing call returns the board state
unchanged — the operation is atomic. -/
theorem C6_missing_tile_error (st : BoardState) (inst : AnchorInstance) (σ : Int) :
    ((∃ e, (apply_move st inst σ).2 = Except.error e) ↔
      ∃ c ∈ inst.cells, js_get st.cell_to_tile_id c = none)
    ∧ (∀ e, (apply_move st inst σ).2 = Except.error e →
        (apply_move st inst σ).1 = st
        ∧ ∃ c ∈ inst.cells, js_get st.cell_to_tile_id c = none
            ∧ e = "Missing tile in cell " ++ c ++ ".") := by
  cases hres : resolve_cycle st inst.cells with
  | ok tiles =>
    rw [apply_move_of_resolve_ok hres]
    refine ⟨⟨?_, ?_⟩, ?_⟩
    · rintro ⟨e, he⟩
      simp at he
    · rintro ⟨c, hc, hnone⟩
      obtain ⟨hlen, hpt⟩ := resolve_cycle_spec hres
      obtain ⟨i, hi, hgi⟩ := mem_getD_of_mem hc
      have hocc := hpt i hi
      rw [hgi, hnone] at hocc
      simp at hocc
    · intro e he
      simp at he
  | error e0 =>
    rw [apply_move_of_resolve_error hres]
    obtain ⟨c, hc, hnone, hmsg⟩ := resolve_cycle_error_msg hres
    refine ⟨⟨fun _ => ⟨c, hc, hnone⟩, fun _ => ⟨e0, rfl⟩⟩, ?_⟩
    intro e he
    simp only [Except.error.injEq] at he
    exact ⟨rfl, c, hc, hnone, by rw [← he]; exact hmsg⟩

/-! ### Claim C2 -/

/-- The mutual-inverse part of the invariant survives one `apply_move`. -/
theorem inverse_preserved {st : BoardState} {inst : AnchorInstance} {σ : Int}
    {tiles : List String}
    (hinv : StateInv st)
    (hres : resolve_cycle st inst.cells = Except.ok tiles)
    (hcn : inst.cells.Nodup) :
    ∀ c t,
      js_get (apply_cycle inst.cells tiles inst.rotation_steps_cw σ st).cell_to_tile_id c
        = some t ↔
      js_get (apply_cycle inst.cells tiles inst.rotation_steps_cw σ st).tile_id_to_cell t
        = some c := by
  have htn : tiles.Nodup := resolve_tiles_nodup hinv.1 hres hcn
  have hlen : tiles.length = inst.cells.length := (resolve_cycle_spec hres).1
  have hpt := (resolve_cycle_spec hres).2
  obtain ⟨P1, P2, P3, P4⟩ :=
    apply_cycle_spec inst.cells tiles inst.rotation_steps_cw σ st hlen hcn htn
  intro c t
  by_cases hc : c ∈ inst.cells
  · obtain ⟨j, hj, hcj⟩ := mem_getD_of_mem hc
    obtain ⟨i, hi, hdi⟩ := destination_index_surj σ hj
    have h1 : js_get (apply_cycle inst.cells tiles inst.rotation_steps_cw σ st).cell_to_tile_id c
        = some (tiles.getD i "") := by
      rw [← hcj, ← hdi]
      exact (P1 i hi).1
    constructor
    · intro h
      have ht : t = tiles.getD i "" := by
        rw [h1] at h
        simpa using h.symm
      rw [ht, ← hcj, ← hdi]
      exact (P1 i hi).2.1
    · intro h
      by_cases htm : t ∈ tiles
      · obtain ⟨m, hm, htm'⟩ := mem_getD_of_mem htm
        have hmc : m < inst.cells.length := by omega
        have h2 : js_get (apply_cycle inst.cells tiles inst.rotation_steps_cw σ st).tile_id_to_cell t
            = some (inst.cells.getD (destination_index σ inst.cells.length m) "") := by
          rw [← htm']
          exact (P1 m hmc).2.1
        rw [h2] at h
        have hceq : inst.cells.getD (destination_index σ inst.cells.length m) ""
            = inst.cells.getD (destination_index σ inst.cells.length i) "" := by
          have := Option.some.inj h
          rw [this, ← hcj, ← hdi]
        have hdm := getD_inj_of_nodup hcn
          (destination_index_lt σ inst.cells.length m hmc)
          (destination_index_lt σ inst.cells.length i hi) hceq
        have hmi : m = i := destination_index_inj σ hmc hi hdm
        rw [h1, ← htm', hmi]
      · -- t resolved nowhere: its old position must be c, occupied by a cycle tile
        have h3 := (P3 t htm).1
        rw [h3] at h
        have h4 := (hinv.1 c t).mpr h
        have h5 := hpt j hj
        rw [hcj] at h5
        have ht : t = tiles.getD j "" := by
          rw [h4] at h5
          simpa using h5
        exact absurd (ht ▸ getD_mem_of_lt (show j < tiles.length by omega)) htm
  · have h5 : js_get (apply_cycle inst.cells tiles inst.rotation_steps_cw σ st).cell_to_tile_id c
        = js_get st.cell_to_tile_id c := P2 c hc
    constructor
    · intro h
      rw [h5] at h
      have h6 := (hinv.1 c t).mp h
      have htm : t ∉ tiles := by
        intro hmem
        obtain ⟨m, hm, htm'⟩ := mem_getD_of_mem hmem
        have hmc : m < inst.cells.length := by omega
        have h7 := hpt m hmc
        rw [htm'] at h7
        have h8 := (hinv.1 _ _).mp h7
        have : c = inst.cells.getD m "" := by
          have := h6.symm.trans h8
          simpa using this
        exact hc (this ▸ getD_mem_of_lt hmc)
      rw [(P3 t htm).1]
      exact h6
    · intro h
      by_cases htm : t ∈ tiles
      · obtain ⟨m, hm, htm'⟩ := mem_getD_of_mem htm
        have hmc : m < inst.cells.length := by omega
        have h2 : js_get (apply_cycle inst.cells tiles inst.rotation_steps_cw σ st).tile_id_to_cell t
            = some (inst.cells.getD (destination_index σ inst.cells.length m) "") := by
          rw [← htm']
          exact (P1 m hmc).2.1
        rw [h2] at h
        have : c = inst.cells.getD (destination_index σ inst.cells.length m) "" := by
          simpa using (Option.some.inj h).symm
        exact absurd (this ▸ getD_mem_of_lt
          (destination_index_lt σ inst.cells.length m hmc)) hc
      · rw [(P3 t htm).1] at h
        rw [h5]
        exact (hinv.1 c t).mpr h

/-- The solved state satisfies the data-model invariant. -/
theorem StateInv_create_solved_state (g : Grid) : StateInv (create_solved_state g) := by
  constructor
  · intro c t
    obtain ⟨H1, H2, _, _⟩ := solved_fold_get g.all_cells
      { cell_to_tile_id := [], tile_id_to_cell := [], tile_rot := [], tile_home_cell := [] } c
    obtain ⟨H1', H2', _, _⟩ := solved_fold_get g.all_cells
      { cell_to_tile_id := [], tile_id_to_cell := [], tile_rot := [], tile_home_cell := [] } t
    unfold create_solved_state
    rw [H1, H2']
    by_cases hck : c ∈ g.all_cells.map cell_key
    · rw [if_pos hck]
      constructor
      · intro h
        have : t = c := by simpa using h.symm
        subst this
        rw [if_pos hck]
      · intro h
        by_cases htk : t ∈ g.all_cells.map cell_key
        · rw [if_pos htk] at h
          have : t = c := by simpa using h
          rw [this]
        · rw [if_neg htk] at h
          simp [js_get_nil] at h
    · rw [if_neg hck]
      constructor
      · intro h
        simp [js_get_nil] at h
      · intro h
        by_cases htk : t ∈ g.all_cells.map cell_key
        · rw [if_pos htk] at h
          have : t = c := by simpa using h
          subst this
          exact absurd htk hck
        · rw [if_neg htk] at h
          simp [js_get_nil] at h
  · intro t r h
    obtain ⟨_, _, H3, _⟩ := solved_fold_get g.all_cells
      { cell_to_tile_id := [], tile_id_to_cell := [], tile_rot := [], tile_home_cell := [] } t
    unfold create_solved_state at h
    rw [H3] at h
    by_cases htk : t ∈ g.all_cells.map cell_key
    · rw [if_pos htk] at h
      have : (0 : Int) = r := by simpa using h
      omega
    · rw [if_neg htk] at h
      simp [js_get_nil] at h

/-- One `apply_move` on distinct occupied cycle cells preserves the
data-model invariant. -/
theorem StateInv_apply_move (st : BoardState) (inst : AnchorInstance) (σ : Int)
    (hinv : StateInv st) (hcn : inst.cells.Nodup)
    (hocc : ∀ c ∈ inst.cells, (js_get st.cell_to_tile_id c).isSome = true) :
    StateInv (apply_move st inst σ).1 := by
  have hocc' : ∀ c ∈ inst.cells, ∃ t, js_get st.cell_to_tile_id c = some t := by
    intro c hc
    exact Option.isSome_iff_exists.mp (hocc c hc)
  obtain ⟨tiles, hres⟩ := resolve_cycle_ok_of_occupied hocc'
  have htn : tiles.Nodup := resolve_tiles_nodup hinv.1 hres hcn
  have hlen : tiles.length = inst.cells.length := (resolve_cycle_spec hres).1
  rw [apply_move_of_resolve_ok hres]
  obtain ⟨S1, S2, S3, S4⟩ := spin_foldl_general inst.rotation_steps_cw σ inst.spin_cells
    (apply_cycle inst.cells tiles inst.rotation_steps_cw σ st, [])
  constructor
  · intro c t
    rw [show (apply_spins inst.spin_cells inst.rotation_steps_cw σ
        (apply_cycle inst.cells tiles inst.rotation_steps_cw σ st)).1.cell_to_tile_id =
        (apply_cycle inst.cells tiles inst.rotation_steps_cw σ st).cell_to_tile_id from S1,
      show (apply_spins inst.spin_cells inst.rotation_steps_cw σ
        (apply_cycle inst.cells tiles inst.rotation_steps_cw σ st)).1.tile_id_to_cell =
        (apply_cycle inst.cells tiles inst.rotation_steps_cw σ st).tile_id_to_cell from S2]
    exact inverse_preserved hinv hres hcn c t
  · intro t r h
    have hsp := S4 t r (by exact h)
    obtain ⟨P1, P2, P3, P4⟩ :=
      apply_cycle_spec inst.cells tiles inst.rotation_steps_cw σ st hlen hcn htn
    rcases hsp with hA | hrange
    · by_cases htm : t ∈ tiles
      · obtain ⟨m, hm, htm'⟩ := mem_getD_of_mem htm
        have hmc : m < inst.cells.length := by omega
        have := (P1 m hmc).2.2
        rw [htm'] at this
        rw [this] at hA
        have : positive_mod ((js_get st.tile_rot t).getD 0
            - inst.rotation_steps_cw * σ) 6 = r := by simpa using hA
        rw [← this]
        exact ⟨positive_mod_nonneg _, positive_mod_lt _⟩
      · rw [(P3 t htm).2] at hA
        exact hinv.2 t r hA
    · exact hrange

/-- C2: the BoardState invariant — `cell_to_tile_id` and `tile_id_to_cell`
exact mutual inverses over the same cell/tile universe (no duplicates, none
missing), every rotation value an integer in [0,6) — is established by
`create_solved_state` and preserved by every `apply_move` call on an
instance whose cycle cells are distinct occupied cells. -/
theorem C2_invariant :
    (∀ g : Grid, StateInv (create_solved_state g))
    ∧ (∀ (st : BoardState) (inst : AnchorInstance) (σ : Int),
        StateInv st → inst.cells.Nodup →
        (∀ c ∈ inst.cells, (js_get st.cell_to_tile_id c).isSome = true) →
        StateInv (apply_move st inst σ).1) :=
  ⟨StateInv_create_solved_state,
    fun st inst σ hinv hcn hocc => StateInv_apply_move st inst σ hinv hcn hocc⟩

/-! ### Claim C1 -/

theorem destination_index_comp1 (n j : Nat) (hj : j < n) :
    destination_index 1 n (destination_index (-1) n j) = j := by
  have h1 : destination_index (-1) n j < n := destination_index_lt _ n j hj
  rw [destination_index_eq 1 n _ h1, destination_index_eq (-1) n j hj]
  norm_num
  split_ifs <;> omega

theorem destination_index_comp2 (n i : Nat) (hi : i < n) :
    destination_index (-1) n (destination_index 1 n i) = i := by
  have h1 : destination_index 1 n i < n := destination_index_lt _ n i hi
  rw [destination_index_eq (-1) n _ h1, destination_index_eq 1 n i hi]
  norm_num
  split_ifs <;> omega

/-- C1: for every board state satisfying the data-model invariant whose
cycle cells are occupied by pairwise distinct tiles, and every anchor
instance produced by the operator builder, applying the move clockwise and
then counterclockwise restores the state exactly: every cell's occupant,
every tile's cell, every tile's rotation value (including the spin-cell
tile's) and every home entry are as before the first call. -/
theorem C1_reversibility (g : Grid) (op : String) (insts : List AnchorInstance)
    (inst : AnchorInstance) (st : BoardState) (tiles : List String)
    (hbuild : build_anchor_instances g op = Except.ok insts) (hmem : inst ∈ insts)
    (hinv : StateInv st)
    (hres : resolve_cycle st inst.cells = Except.ok tiles)
    (htn : tiles.Nodup) :
    (∀ x, js_get (apply_move (apply_move st inst 1).1 inst (-1)).1.cell_to_tile_id x
        = js_get st.cell_to_tile_id x)
    ∧ (∀ t, js_get (apply_move (apply_move st inst 1).1 inst (-1)).1.tile_id_to_cell t
        = js_get st.tile_id_to_cell t)
    ∧ (∀ t, (js_get (apply_move (apply_move st inst 1).1 inst (-1)).1.tile_rot t).getD 0
        = (js_get st.tile_rot t).getD 0)
    ∧ (apply_move (apply_move st inst 1).1 inst (-1)).1.tile_home_cell
        = st.tile_home_cell := by
  obtain ⟨hcn, hspin, _⟩ := builder_instance_shape hbuild hmem
  have hlen : tiles.length = inst.cells.length := (resolve_cycle_spec hres).1
  have hpt := (resolve_cycle_spec hres).2
  -- spin occupants are never cycle tiles
  have hno : ∀ t, t ∈ tiles →
      ∀ k0 ∈ inst.spin_cells, js_get st.cell_to_tile_id k0 ≠ some t := by
    intro t htm k0 hk0 hcontra
    rcases hspin with hnil | ⟨k1, hk1, hk1n⟩
    · rw [hnil] at hk0
      exact absurd hk0 (by simp)
    · rw [hk1] at hk0
      have : k0 = k1 := by simpa using hk0
      subst this
      exact spin_tile_not_in_tiles hinv.1 hres hk1n hcontra htm
  obtain ⟨M1, M2, M3, M4, M5, M6, M7, M8⟩ :=
    apply_move_builder_spec st inst 1 tiles hres htn hcn hspin
  -- the cycle cells stay occupied, resolve the second call
  have hocc1 : ∀ c ∈ inst.cells, ∃ t,
      js_get (apply_move st inst 1).1.cell_to_tile_id c = some t := by
    intro c hc
    obtain ⟨j, hj, hcj⟩ := mem_getD_of_mem hc
    refine ⟨tiles.getD (destination_index (-1) inst.cells.length j) "", ?_⟩
    have h1 := M1 (destination_index (-1) inst.cells.length j)
      (destination_index_lt _ _ j hj)
    rw [destination_index_comp1 inst.cells.length j hj] at h1
    rw [hcj] at h1
    exact h1
  obtain ⟨tiles2, hres2⟩ := resolve_cycle_ok_of_occupied hocc1
  have hlen2 : tiles2.length = inst.cells.length := (resolve_cycle_spec hres2).1
  have hpt2 := (resolve_cycle_spec hres2).2
  -- the second resolution reads the rotated tile list
  have hT2 : ∀ j, j < inst.cells.length →
      tiles2.getD j "" = tiles.getD (destination_index (-1) inst.cells.length j) "" := by
    intro j hj
    have h1 := hpt2 j hj
    have h2 := M1 (destination_index (-1) inst.cells.length j)
      (destination_index_lt _ _ j hj)
    rw [destination_index_comp1 inst.cells.length j hj] at h2
    rw [h1] at h2
    simpa using h2
  have hsub2 : ∀ t ∈ tiles2, t ∈ tiles := by
    intro t ht
    obtain ⟨j, hj, hjt⟩ := mem_getD_of_mem ht
    have hjc : j < inst.cells.length := by omega
    rw [hT2 j hjc] at hjt
    exact hjt ▸ getD_mem_of_lt (show destination_index (-1) inst.cells.length j < tiles.length by
      rw [hlen]; exact destination_index_lt _ _ j hjc)
  have htn2 : tiles2.Nodup := by
    rw [List.nodup_iff_injective_get]
    intro a b hab
    have ha : a.val < inst.cells.length := by have := a.isLt; omega
    have hb : b.val < inst.cells.length := by have := b.isLt; omega
    have hg : tiles2.getD a.val "" = tiles2.getD b.val "" := by
      rw [List.getD_eq_getElem tiles2 "" a.isLt, List.getD_eq_getElem tiles2 "" b.isLt]
      simpa using hab
    rw [hT2 a.val ha, hT2 b.val hb] at hg
    have hd := getD_inj_of_nodup htn
      (show destination_index (-1) inst.cells.length a.val < tiles.length by
        rw [hlen]; exact destination_index_lt _ _ _ ha)
      (show destination_index (-1) inst.cells.length b.val < tiles.length by
        rw [hlen]; exact destination_index_lt _ _ _ hb) hg
    exact Fin.ext (destination_index_inj (-1) ha hb hd)
  obtain ⟨N1, N2, N3, N4, N5, N6, N7, N8⟩ :=
    apply_move_builder_spec (apply_move st inst 1).1 inst (-1) tiles2 hres2 htn2 hcn hspin
  -- spin occupants in the intermediate state are the original spin occupants
  have hspin_same : ∀ k0 ∈ inst.spin_cells,
      js_get (apply_move st inst 1).1.cell_to_tile_id k0 = js_get st.cell_to_tile_id k0 := by
    intro k0 hk0
    rcases hspin with hnil | ⟨k1, hk1, hk1n⟩
    · rw [hnil] at hk0
      exact absurd hk0 (by simp)
    · rw [hk1] at hk0
      have : k0 = k1 := by simpa using hk0
      subst this
      exact M2 k0 hk1n
  have hno2 : ∀ t, t ∈ tiles →
      ∀ k0 ∈ inst.spin_cells,
        js_get (apply_move st inst 1).1.cell_to_tile_id k0 ≠ some t := by
    intro t htm k0 hk0
    rw [hspin_same k0 hk0]
    exact hno t htm k0 hk0
  have hrot_range : ∀ t, 0 ≤ (js_get st.tile_rot t).getD 0
      ∧ (js_get st.tile_rot t).getD 0 < 6 := by
    intro t
    cases hr : js_get st.tile_rot t with
    | none => simp
    | some r =>
      have := hinv.2 t r hr
      simpa using this
  refine ⟨?_, ?_, ?_, ?_⟩
  · -- cell_to_tile_id restored
    intro x
    by_cases hx : x ∈ inst.cells
    · obtain ⟨j, hj, hxj⟩ := mem_getD_of_mem hx
      have hdj : destination_index 1 inst.cells.length j < inst.cells.length :=
        destination_index_lt _ _ j hj
      have h1 : js_get (apply_move (apply_move st inst 1).1 inst (-1)).1.cell_to_tile_id
          (inst.cells.getD (destination_index (-1) inst.cells.length
            (destination_index 1 inst.cells.length j)) "")
          = some (tiles2.getD (destination_index 1 inst.cells.length j) "") := N1 _ hdj
      rw [destination_index_comp2 inst.cells.length j hj] at h1
      rw [hxj] at h1
      rw [h1, hT2 _ hdj, destination_index_comp2 inst.cells.length j hj]
      have := hpt j hj
      rw [hxj] at this
      rw [this]
    · rw [N2 x hx, M2 x hx]
  · -- tile_id_to_cell restored
    intro t
    by_cases htm : t ∈ tiles
    · obtain ⟨m, hm, htm'⟩ := mem_getD_of_mem htm
      have hmc : m < inst.cells.length := by omega
      have hdm : destination_index 1 inst.cells.length m < inst.cells.length :=
        destination_index_lt _ _ m hmc
      have ht2 : tiles2.getD (destination_index 1 inst.cells.length m) "" = t := by
        rw [hT2 _ hdm, destination_index_comp2 inst.cells.length m hmc, htm']
      have h1 := N3 (destination_index 1 inst.cells.length m) hdm
      rw [ht2, destination_index_comp2 inst.cells.length m hmc] at h1
      rw [h1]
      have h2 := hpt m hmc
      rw [htm'] at h2
      exact ((hinv.1 _ _).mp h2).symm
    · have htm2 : t ∉ tiles2 := fun hc => htm (hsub2 t hc)
      rw [N4 t htm2, M4 t htm]
  · -- rotation values restored
    intro t
    by_cases htm : t ∈ tiles
    · obtain ⟨m, hm, htm'⟩ := mem_getD_of_mem htm
      have hmc : m < inst.cells.length := by omega
      have hdm : destination_index 1 inst.cells.length m < inst.cells.length :=
        destination_index_lt _ _ m hmc
      have ht2 : tiles2.getD (destination_index 1 inst.cells.length m) "" = t := by
        rw [hT2 _ hdm, destination_index_comp2 inst.cells.length m hmc, htm']
      have hr1 : js_get (apply_move st inst 1).1.tile_rot t
          = some (positive_mod ((js_get st.tile_rot t).getD 0
              - inst.rotation_steps_cw * 1) 6) := by
        rw [← htm']
        exact M5 m hmc (by rw [htm']; exact hno t htm)
      have hr2 := N5 (destination_index 1 inst.cells.length m) hdm
        (by rw [ht2]; exact hno2 t htm)
      rw [ht2] at hr2
      rw [hr2, hr1]
      have harith : (js_get st.tile_rot t).getD 0 - inst.rotation_steps_cw * 1
          - inst.rotation_steps_cw * (-1) = (js_get st.tile_rot t).getD 0 := by ring
      simp only [Option.getD_some]
      rw [positive_mod_shift_sub, harith,
        positive_mod_self (hrot_range t).1 (hrot_range t).2]
    · rcases hspin with hnil | ⟨k1, hk1, hk1n⟩
      · have hvac : ∀ k0 ∈ inst.spin_cells,
            js_get st.cell_to_tile_id k0 ≠ some t := by
          intro k0 hk0
          rw [hnil] at hk0
          exact absurd hk0 (by simp)
        have hvac1 : ∀ k0 ∈ inst.spin_cells,
            js_get (apply_move st inst 1).1.cell_to_tile_id k0 ≠ some t := by
          intro k0 hk0
          rw [hspin_same k0 hk0]
          exact hvac k0 hk0
        have htm2 : t ∉ tiles2 := fun hc => htm (hsub2 t hc)
        rw [N7 t htm2 hvac1, M7 t htm hvac]
      · by_cases hBt : js_get st.cell_to_tile_id k1 = some t
        · have hk1mem : k1 ∈ inst.spin_cells := by rw [hk1]; simp
          have hr1 := M6 k1 hk1mem t hBt htm
          have hBt1 : js_get (apply_move st inst 1).1.cell_to_tile_id k1 = some t := by
            rw [hspin_same k1 hk1mem]
            exact hBt
          have htm2 : t ∉ tiles2 := fun hc => htm (hsub2 t hc)
          have hr2 := N6 k1 hk1mem t hBt1 htm2
          rw [hr2, hr1]
          have harith : (js_get st.tile_rot t).getD 0 - inst.rotation_steps_cw * 1
              - inst.rotation_steps_cw * (-1) = (js_get st.tile_rot t).getD 0 := by ring
          simp only [Option.getD_some]
          rw [positive_mod_shift_sub, harith,
            positive_mod_self (hrot_range t).1 (hrot_range t).2]
        · have hvac : ∀ k0 ∈ inst.spin_cells,
              js_get st.cell_to_tile_id k0 ≠ some t := by
            intro k0 hk0
            rw [hk1] at hk0
            have : k0 = k1 := by simpa using hk0
            subst this
            exact hBt
          have hvac1 : ∀ k0 ∈ inst.spin_cells,
              js_get (apply_move st inst 1).1.cell_to_tile_id k0 ≠ some t := by
            intro k0 hk0
            rw [hspin_same k0 hk0]
            exact hvac k0 hk0
          have htm2 : t ∉ tiles2 := fun hc => htm (hsub2 t hc)
          rw [N7 t htm2 hvac1, M7 t htm hvac]
  · exact N8.trans M8

/-! ### Claim C8 -/

/-- Repeated application of the same instance with the same sign. -/
def iterate_apply_move (inst : AnchorInstance) (σ : Int) : Nat → BoardState → BoardState
  | 0, st => st
  | k + 1, st => (apply_move (iterate_apply_move inst σ k st) inst σ).1

/-- Pointwise description of `k` repetitions of one builder-shaped move: the
occupancy is shifted by `k·δ` positions and every touched rotation value is
decremented by `k` rotation deltas. -/
theorem iterate_move_spec (inst : AnchorInstance) (st : BoardState) (tiles : List String)
    (σ : Int) (δ δ' : Nat)
    (hsum : δ + δ' = inst.cells.length)
    (hdest : ∀ x, destination_index σ inst.cells.length x = (x + δ) % inst.cells.length)
    (hn : 0 < inst.cells.length)
    (hinv : StateInv st)
    (hres : resolve_cycle st inst.cells = Except.ok tiles)
    (htn : tiles.Nodup) (hcn : inst.cells.Nodup)
    (hspin : inst.spin_cells = [] ∨ ∃ k0, inst.spin_cells = [k0] ∧ k0 ∉ inst.cells) :
    ∀ k : Nat,
      (∀ i, i < inst.cells.length →
        js_get (iterate_apply_move inst σ k st).cell_to_tile_id
            (inst.cells.getD ((i + k * δ) % inst.cells.length) "")
          = some (tiles.getD i ""))
      ∧ (∀ i, i < inst.cells.length →
        js_get (iterate_apply_move inst σ k st).tile_id_to_cell (tiles.getD i "")
          = some (inst.cells.getD ((i + k * δ) % inst.cells.length) ""))
      ∧ (∀ i, i < inst.cells.length →
        (js_get (iterate_apply_move inst σ k st).tile_rot (tiles.getD i "")).getD 0
          = positive_mod ((js_get st.tile_rot (tiles.getD i "")).getD 0
              - (k : Int) * (inst.rotation_steps_cw * σ)) 6)
      ∧ (∀ x, x ∉ inst.cells →
        js_get (iterate_apply_move inst σ k st).cell_to_tile_id x
          = js_get st.cell_to_tile_id x)
      ∧ (∀ t, t ∉ tiles →
        js_get (iterate_apply_move inst σ k st).tile_id_to_cell t
          = js_get st.tile_id_to_cell t)
      ∧ (∀ t, t ∉ tiles → (∀ k0 ∈ inst.spin_cells, js_get st.cell_to_tile_id k0 ≠ some t) →
        js_get (iterate_apply_move inst σ k st).tile_rot t = js_get st.tile_rot t)
      ∧ (∀ k0 ∈ inst.spin_cells, ∀ B, js_get st.cell_to_tile_id k0 = some B →
        (js_get (iterate_apply_move inst σ k st).tile_rot B).getD 0
          = positive_mod ((js_get st.tile_rot B).getD 0
              - (k : Int) * (inst.rotation_steps_cw * σ)) 6)
      ∧ (iterate_apply_move inst σ k st).tile_home_cell = st.tile_home_cell := by
  have hpt := (resolve_cycle_spec hres).2
  have hlen : tiles.length = inst.cells.length := (resolve_cycle_spec hres).1
  have hrot_range : ∀ t, 0 ≤ (js_get st.tile_rot t).getD 0
      ∧ (js_get st.tile_rot t).getD 0 < 6 := by
    intro t
    cases hr : js_get st.tile_rot t with
    | none => simp
    | some r =>
      have := hinv.2 t r hr
      simpa using this
  have hBnotin : ∀ k0 ∈ inst.spin_cells, ∀ B, js_get st.cell_to_tile_id k0 = some B →
      B ∉ tiles := by
    intro k0 hk0 B hB
    rcases hspin with hnil | ⟨k1, hk1, hk1n⟩
    · rw [hnil] at hk0
      exact absurd hk0 (by simp)
    · rw [hk1] at hk0
      have : k0 = k1 := by simpa using hk0
      subst this
      exact spin_tile_not_in_tiles hinv.1 hres hk1n hB
  have hk0notin : ∀ k0 ∈ inst.spin_cells, k0 ∉ inst.cells := by
    intro k0 hk0
    rcases hspin with hnil | ⟨k1, hk1, hk1n⟩
    · rw [hnil] at hk0
      exact absurd hk0 (by simp)
    · rw [hk1] at hk0
      have : k0 = k1 := by simpa using hk0
      subst this
      exact hk1n
  -- index shift algebra
  have hshift_cancel : ∀ (k j : Nat), j < inst.cells.length →
      ((j + k * δ') % inst.cells.length + k * δ) % inst.cells.length = j := by
    intro k j hj
    rw [Nat.mod_add_mod]
    have harith : j + k * δ' + k * δ = j + k * inst.cells.length := by
      rw [← hsum]
      ring
    rw [harith, Nat.add_mul_mod_self_right]
    exact Nat.mod_eq_of_lt hj
  have hshift_cancel' : ∀ (k i : Nat), i < inst.cells.length →
      ((i + k * δ) % inst.cells.length + k * δ') % inst.cells.length = i := by
    intro k i hi
    rw [Nat.mod_add_mod]
    have harith : i + k * δ + k * δ' = i + k * inst.cells.length := by
      rw [← hsum]
      ring
    rw [harith, Nat.add_mul_mod_self_right]
    exact Nat.mod_eq_of_lt hi
  intro k
  induction k with
  | zero =>
    refine ⟨?_, ?_, ?_, fun x _ => rfl, fun t _ => rfl, fun t _ _ => rfl, ?_, rfl⟩
    · intro i hi
      have : (i + 0 * δ) % inst.cells.length = i := by
        rw [Nat.zero_mul, Nat.add_zero]
        exact Nat.mod_eq_of_lt hi
      rw [this]
      exact hpt i hi
    · intro i hi
      have h1 := hpt i hi
      have : (i + 0 * δ) % inst.cells.length = i := by
        rw [Nat.zero_mul, Nat.add_zero]
        exact Nat.mod_eq_of_lt hi
      rw [this]
      exact (hinv.1 _ _).mp h1
    · intro i hi
      have : ((js_get st.tile_rot (tiles.getD i "")).getD 0
          - ((0 : Nat) : Int) * (inst.rotation_steps_cw * σ))
          = (js_get st.tile_rot (tiles.getD i "")).getD 0 := by
        push_cast
        ring
      rw [this, positive_mod_self (hrot_range _).1 (hrot_range _).2]
      rfl
    · intro k0 hk0 B hB
      have : ((js_get st.tile_rot B).getD 0
          - ((0 : Nat) : Int) * (inst.rotation_steps_cw * σ))
          = (js_get st.tile_rot B).getD 0 := by
        push_cast
        ring
      rw [this, positive_mod_self (hrot_range _).1 (hrot_range _).2]
      rfl
  | succ k ih =>
    obtain ⟨A1, A2, A3, A4, A5, A6, A7, A8⟩ := ih
    -- occupancy of the cycle cells after k moves
    have hocc_k : ∀ c ∈ inst.cells, ∃ t,
        js_get (iterate_apply_move inst σ k st).cell_to_tile_id c = some t := by
      intro c hc
      obtain ⟨j, hj, hcj⟩ := mem_getD_of_mem hc
      refine ⟨tiles.getD ((j + k * δ') % inst.cells.length) "", ?_⟩
      have h1 := A1 ((j + k * δ') % inst.cells.length) (Nat.mod_lt _ hn)
      rw [hshift_cancel k j hj] at h1
      rw [hcj] at h1
      exact h1
    obtain ⟨tiles_k, hres_k⟩ := resolve_cycle_ok_of_occupied hocc_k
    have hlen_k : tiles_k.length = inst.cells.length := (resolve_cycle_spec hres_k).1
    have hpt_k := (resolve_cycle_spec hres_k).2
    have hTk : ∀ j, j < inst.cells.length →
        tiles_k.getD j "" = tiles.getD ((j + k * δ') % inst.cells.length) "" := by
      intro j hj
      have h1 := hpt_k j hj
      have h2 := A1 ((j + k * δ') % inst.cells.length) (Nat.mod_lt _ hn)
      rw [hshift_cancel k j hj] at h2
      rw [h1] at h2
      simpa using h2
    have hsub_k : ∀ t ∈ tiles_k, t ∈ tiles := by
      intro t ht
      obtain ⟨j, hj, hjt⟩ := mem_getD_of_mem ht
      have hjc : j < inst.cells.length := by omega
      rw [hTk j hjc] at hjt
      exact hjt ▸ getD_mem_of_lt (show (j + k * δ') % inst.cells.length < tiles.length by
        rw [hlen]; exact Nat.mod_lt _ hn)
    have htn_k : tiles_k.Nodup := by
      rw [List.nodup_iff_injective_get]
      intro a b hab
      have ha : a.val < inst.cells.length := by have := a.isLt; omega
      have hb : b.val < inst.cells.length := by have := b.isLt; omega
      have hg : tiles_k.getD a.val "" = tiles_k.getD b.val "" := by
        rw [List.getD_eq_getElem tiles_k "" a.isLt, List.getD_eq_getElem tiles_k "" b.isLt]
        simpa using hab
      rw [hTk a.val ha, hTk b.val hb] at hg
      have hd := getD_inj_of_nodup htn
        (show (a.val + k * δ') % inst.cells.length < tiles.length by
          rw [hlen]; exact Nat.mod_lt _ hn)
        (show (b.val + k * δ') % inst.cells.length < tiles.length by
          rw [hlen]; exact Nat.mod_lt _ hn) hg
      have := congrArg (fun z => (z + k * δ) % inst.cells.length) hd
      simp only at this
      rw [hshift_cancel k a.val ha, hshift_cancel k b.val hb] at this
      exact Fin.ext this
  -- wait: hshift_cancel is about (j + kδ')%n + kδ; hd : (a+kδ')%n = (b+kδ')%n; applying
  -- the shift map gives a = b via hshift_cancel.
    obtain ⟨M1, M2, M3, M4, M5, M6, M7, M8⟩ :=
      apply_move_builder_spec (iterate_apply_move inst σ k st) inst σ tiles_k hres_k
        htn_k hcn hspin
    have hspin_keep : ∀ k0 ∈ inst.spin_cells,
        js_get (iterate_apply_move inst σ k st).cell_to_tile_id k0
          = js_get st.cell_to_tile_id k0 :=
      fun k0 hk0 => A4 k0 (hk0notin k0 hk0)
    have hguard : ∀ t, t ∈ tiles →
        ∀ k0 ∈ inst.spin_cells,
          js_get (iterate_apply_move inst σ k st).cell_to_tile_id k0 ≠ some t := by
      intro t ht k0 hk0 hcontra
      rw [hspin_keep k0 hk0] at hcontra
      exact hBnotin k0 hk0 t hcontra ht
    have hstep_arith : ∀ v : Int,
        positive_mod (positive_mod (v - (k : Int) * (inst.rotation_steps_cw * σ)) 6
          - inst.rotation_steps_cw * σ) 6
        = positive_mod (v - ((k + 1 : Nat) : Int) * (inst.rotation_steps_cw * σ)) 6 := by
      intro v
      rw [positive_mod_shift_sub]
      congr 1
      push_cast
      ring
    refine ⟨?_, ?_, ?_, ?_, ?_, ?_, ?_, ?_⟩
    · intro i hi
      have hsi : (i + k * δ) % inst.cells.length < inst.cells.length := Nat.mod_lt _ hn
      have h1 := M1 ((i + k * δ) % inst.cells.length) hsi
      rw [hdest, Nat.mod_add_mod] at h1
      have harith : i + k * δ + δ = i + (k + 1) * δ := by ring
      rw [harith] at h1
      have h2 : tiles_k.getD ((i + k * δ) % inst.cells.length) "" = tiles.getD i "" := by
        rw [hTk _ hsi, hshift_cancel' k i hi]
      rw [h2] at h1
      exact h1
    · intro i hi
      have hsi : (i + k * δ) % inst.cells.length < inst.cells.length := Nat.mod_lt _ hn
      have h1 := M3 ((i + k * δ) % inst.cells.length) hsi
      rw [hdest, Nat.mod_add_mod] at h1
      have harith : i + k * δ + δ = i + (k + 1) * δ := by ring
      rw [harith] at h1
      have h2 : tiles_k.getD ((i + k * δ) % inst.cells.length) "" = tiles.getD i "" := by
        rw [hTk _ hsi, hshift_cancel' k i hi]
      rw [h2] at h1
      exact h1
    · intro i hi
      have hsi : (i + k * δ) % inst.cells.length < inst.cells.length := Nat.mod_lt _ hn
      have h2 : tiles_k.getD ((i + k * δ) % inst.cells.length) "" = tiles.getD i "" := by
        rw [hTk _ hsi, hshift_cancel' k i hi]
      have h1 := M5 ((i + k * δ) % inst.cells.length) hsi (by
        rw [h2]
        exact hguard (tiles.getD i "") (getD_mem_of_lt (by omega)))
      rw [h2] at h1
      rw [iterate_apply_move]
      rw [h1]
      rw [Option.getD_some]
      rw [A3 i hi]
      exact hstep_arith _
    · intro x hx
      rw [iterate_apply_move, M2 x hx]
      exact A4 x hx
    · intro t ht
      have htk : t ∉ tiles_k := fun hc => ht (hsub_k t hc)
      rw [iterate_apply_move, M4 t htk]
      exact A5 t ht
    · intro t ht hvac
      have htk : t ∉ tiles_k := fun hc => ht (hsub_k t hc)
      have hvac1 : ∀ k0 ∈ inst.spin_cells,
          js_get (iterate_apply_move inst σ k st).cell_to_tile_id k0 ≠ some t := by
        intro k0 hk0
        rw [hspin_keep k0 hk0]
        exact hvac k0 hk0
      rw [iterate_apply_move, M7 t htk hvac1]
      exact A6 t ht hvac
    · intro k0 hk0 B hB
      have hB1 : js_get (iterate_apply_move inst σ k st).cell_to_tile_id k0 = some B := by
        rw [hspin_keep k0 hk0]
        exact hB
      have hBt : B ∉ tiles := hBnotin k0 hk0 B hB
      have hBtk : B ∉ tiles_k := fun hc => hBt (hsub_k B hc)
      have h1 := M6 k0 hk0 B hB1 hBtk
      rw [iterate_apply_move, h1, Option.getD_some, A7 k0 hk0 B hB]
      exact hstep_arith _
    · rw [iterate_apply_move, M8]
      exact A8

/-- C8: for every anchor instance produced by the builder and every
invariant-satisfying board whose cycle cells are occupied by distinct tiles,
`6 / rotation_steps_cw` equals the cycle length, and repeating the move that
many times with the same direction sign restores the entire board state:
occupancies, tile positions, rotation values (the spin-cell tile included)
and home cells. In particular a ring-of-6 instance applied clockwise six
times, and a vertex-triad instance applied clockwise three times, restore
the board. -/
theorem C8_repeat_restores (g : Grid) (op : String) (insts : List AnchorInstance)
    (inst : AnchorInstance) (st : BoardState) (tiles : List String) (σ : Int)
    (hbuild : build_anchor_instances g op = Except.ok insts) (hmem : inst ∈ insts)
    (hinv : StateInv st)
    (hres : resolve_cycle st inst.cells = Except.ok tiles)
    (htn : tiles.Nodup)
    (hσ : σ = 1 ∨ σ = -1) :
    6 / inst.rotation_steps_cw = (inst.cells.length : Int)
    ∧ (∀ x, js_get (iterate_apply_move inst σ inst.cells.length st).cell_to_tile_id x
        = js_get st.cell_to_tile_id x)
    ∧ (∀ t, js_get (iterate_apply_move inst σ inst.cells.length st).tile_id_to_cell t
        = js_get st.tile_id_to_cell t)
    ∧ (∀ t, (js_get (iterate_apply_move inst σ inst.cells.length st).tile_rot t).getD 0
        = (js_get st.tile_rot t).getD 0)
    ∧ (iterate_apply_move inst σ inst.cells.length st).tile_home_cell
        = st.tile_home_cell := by
  obtain ⟨hcn, hspin, hprof⟩ := builder_instance_shape hbuild hmem
  have hn : 0 < inst.cells.length := by
    rcases hprof with ⟨_, h⟩ | ⟨_, h⟩ <;> omega
  have hpt := (resolve_cycle_spec hres).2
  have hlen' : tiles.length = inst.cells.length := (resolve_cycle_spec hres).1
  obtain ⟨δ, δ', hsum, hdest⟩ : ∃ δ δ' : Nat, δ + δ' = inst.cells.length ∧
      ∀ x, destination_index σ inst.cells.length x = (x + δ) % inst.cells.length := by
    rcases hσ with h1 | h1
    · refine ⟨1, inst.cells.length - 1, by omega, ?_⟩
      intro x
      unfold destination_index
      rw [if_pos h1]
    · refine ⟨inst.cells.length - 1, 1, by omega, ?_⟩
      intro x
      unfold destination_index
      rw [if_neg (by rw [h1]; norm_num)]
      congr 1
      omega
  obtain ⟨P1, P2, P3, P4, P5, P6, P7, P8⟩ :=
    iterate_move_spec inst st tiles σ δ δ' hsum hdest hn hinv hres htn hcn hspin
      inst.cells.length
  have hidx : ∀ i, i < inst.cells.length →
      (i + inst.cells.length * δ) % inst.cells.length = i := by
    intro i hi
    rw [Nat.mul_comm, Nat.add_mul_mod_self_right]
    exact Nat.mod_eq_of_lt hi
  have h6 : (inst.cells.length : Int) * (inst.rotation_steps_cw * σ) = 6 * σ := by
    rcases hprof with ⟨h1, h2⟩ | ⟨h1, h2⟩ <;> rw [h1, h2] <;> push_cast <;> ring
  have hrot_range : ∀ t, 0 ≤ (js_get st.tile_rot t).getD 0
      ∧ (js_get st.tile_rot t).getD 0 < 6 := by
    intro t
    cases hr : js_get st.tile_rot t with
    | none => simp
    | some r =>
      have := hinv.2 t r hr
      simpa using this
  have hpm6 : ∀ t : String,
      positive_mod ((js_get st.tile_rot t).getD 0
        - (inst.cells.length : Int) * (inst.rotation_steps_cw * σ)) 6
      = (js_get st.tile_rot t).getD 0 := by
    intro t
    rw [h6]
    have := hrot_range t
    unfold positive_mod
    omega
  refine ⟨?_, ?_, ?_, ?_, P8⟩
  · rcases hprof with ⟨h1, h2⟩ | ⟨h1, h2⟩ <;> rw [h1, h2] <;> decide
  · intro x
    by_cases hx : x ∈ inst.cells
    · obtain ⟨j, hj, hxj⟩ := mem_getD_of_mem hx
      have h1 := P1 j hj
      rw [hidx j hj] at h1
      rw [hxj] at h1
      rw [h1]
      have h2 := hpt j hj
      rw [hxj] at h2
      rw [h2]
    · exact P4 x hx
  · intro t
    by_cases htm : t ∈ tiles
    · obtain ⟨m, hm, htm'⟩ := mem_getD_of_mem htm
      have hmc : m < inst.cells.length := by omega
      have h1 := P2 m hmc
      rw [hidx m hmc] at h1
      rw [htm'] at h1
      rw [h1]
      have h2 := hpt m hmc
      rw [htm'] at h2
      exact ((hinv.1 _ _).mp h2).symm
    · exact P5 t htm
  · intro t
    by_cases htm : t ∈ tiles
    · obtain ⟨m, hm, htm'⟩ := mem_getD_of_mem htm
      have hmc : m < inst.cells.length := by omega
      have h1 := P3 m hmc
      rw [htm'] at h1
      rw [h1]
      exact hpm6 t
    · rcases hspin with hnil | ⟨k1, hk1, hk1n⟩
      · have hvac : ∀ k0 ∈ inst.spin_cells, js_get st.cell_to_tile_id k0 ≠ some t := by
          intro k0 hk0
          rw [hnil] at hk0
          exact absurd hk0 (by simp)
        rw [P6 t htm hvac]
      · by_cases hBt : js_get st.cell_to_tile_id k1 = some t
        · have hk1mem : k1 ∈ inst.spin_cells := by rw [hk1]; simp
          have h1 := P7 k1 hk1mem t hBt
          rw [h1]
          exact hpm6 t
        · have hvac : ∀ k0 ∈ inst.spin_cells, js_get st.cell_to_tile_id k0 ≠ some t := by
            intro k0 hk0
            rw [hk1] at hk0
            have : k0 = k1 := by simpa using hk0
            subst this
            exact hBt
          rw [P6 t htm hvac]

/-! ### Claim C3 -/

/-- The 3x3 grid used for concrete checks (`create_grid 3 3` succeeds with
exactly this value). -/
def grid33 : Grid := { w := 3, h := 3, all_cells := grid_cells 3 3 }

/-- The `ring6_60` instance anchored at cell (1,1) of `grid33`, exactly as
the builder emits it. -/
def ring6_inst_11 : AnchorInstance :=
  { operator_id := "ring6_60"
    anchor_id := "cell:1,1"
    cells := ["2,1", "1,0", "0,0", "0,1", "0,2", "1,2"]
    spin_cells := ["1,1"]
    rotation_steps_cw := 1 }

/-- C3 counterexample: on the solved 3x3 board, the builder-produced
ring-of-6 instance anchored at (1,1) has all cycle cells occupied, yet
applying the move changes the rotation of the tile at the anchor cell —
the code puts the anchor into `spin_cells` for ring6_60, so the anchor
does spin, contradicting the claim. -/
theorem C3_counterexample :
    ring6_inst_11 ∈ ((build_anchor_instances grid33 "ring6_60").toOption.getD [])
    ∧ (∀ c ∈ ring6_inst_11.cells,
        (js_get (create_solved_state grid33).cell_to_tile_id c).isSome = true)
    ∧ js_get (apply_move (create_solved_state grid33) ring6_inst_11 1).1.tile_rot "1,1"
        ≠ js_get (create_solved_state grid33).tile_rot "1,1" := by
  decide

/-- C3 amended: for every `ring6_60` instance produced by the builder and
every invariant-satisfying board whose cycle cells are occupied by distinct
tiles and whose anchor cell is occupied, the anchor cell's tile does not
move — it stays at the anchor cell with an unchanged `tile_id_to_cell`
entry — but it does spin: because the builder puts the anchor cell into
`spin_cells` even for ring6_60, its rotation becomes
`positive_mod (previous - rotation_steps_cw * direction_sign) 6`, which for
a unit sign always differs from its previous value. -/
theorem C3_ring6_anchor_spins (g : Grid) (insts : List AnchorInstance)
    (inst : AnchorInstance) (st : BoardState) (tiles : List String) (σ : Int)
    (k0 B : String)
    (hbuild : build_anchor_instances g "ring6_60" = Except.ok insts)
    (hmem : inst ∈ insts)
    (hinv : StateInv st)
    (hres : resolve_cycle st inst.cells = Except.ok tiles)
    (htn : tiles.Nodup)
    (hk0 : inst.spin_cells = [k0])
    (hB : js_get st.cell_to_tile_id k0 = some B)
    (hσ : σ = 1 ∨ σ = -1) :
    js_get (apply_move st inst σ).1.cell_to_tile_id k0 = some B
    ∧ js_get (apply_move st inst σ).1.tile_id_to_cell B = js_get st.tile_id_to_cell B
    ∧ js_get (apply_move st inst σ).1.tile_rot B
        = some (positive_mod ((js_get st.tile_rot B).getD 0
            - inst.rotation_steps_cw * σ) 6)
    ∧ js_get (apply_move st inst σ).1.tile_rot B ≠ js_get st.tile_rot B := by
  have hdispatch : build_anchor_instances g "ring6_60" =
      Except.ok (build_cell_operator_instances g "ring6_60" [0, 1, 2, 3, 4, 5] 1) := by
    unfold build_anchor_instances
    rw [if_pos rfl]
  rw [hdispatch] at hbuild
  have hmem' : inst ∈ build_cell_operator_instances g "ring6_60" [0, 1, 2, 3, 4, 5] 1 := by
    rw [Except.ok.inj hbuild]
    exact hmem
  obtain ⟨c, hc, hex, hcells, hspinc, hsteps⟩ := mem_build_cell_operator_instances hmem'
  have hb : ∀ d ∈ ([0, 1, 2, 3, 4, 5] : List Int), 0 ≤ d ∧ d < 6 := by decide
  have hnd : ([0, 1, 2, 3, 4, 5] : List Int).Nodup := by decide
  have hcn : inst.cells.Nodup := by
    rw [hcells]
    exact cell_op_cells_nodup c hb hnd
  have hk0c : k0 = cell_key c := by
    rw [hk0] at hspinc
    simpa using hspinc
  have hk0n : k0 ∉ inst.cells := by
    rw [hk0c, hcells]
    exact cell_op_spin_not_mem c hb
  have hspin : inst.spin_cells = [] ∨ ∃ k1, inst.spin_cells = [k1] ∧ k1 ∉ inst.cells :=
    Or.inr ⟨k0, hk0, hk0n⟩
  have hBnot : B ∉ tiles := spin_tile_not_in_tiles hinv.1 hres hk0n hB
  obtain ⟨M1, M2, M3, M4, M5, M6, M7, M8⟩ :=
    apply_move_builder_spec st inst σ tiles hres htn hcn hspin
  have hk0mem : k0 ∈ inst.spin_cells := by
    rw [hk0]
    simp
  refine ⟨by rw [M2 k0 hk0n]; exact hB, M4 B hBnot, M6 k0 hk0mem B hB hBnot, ?_⟩
  rw [M6 k0 hk0mem B hB hBnot]
  cases hr : js_get st.tile_rot B with
  | none => simp
  | some r =>
    have hrange := hinv.2 B r hr
    intro hcontra
    have heq : positive_mod (r - inst.rotation_steps_cw * σ) 6 = r := by
      simpa using hcontra
    rw [hsteps] at heq
    unfold positive_mod at heq
    rcases hσ with h1 | h1 <;> rw [h1] at heq <;> omega

/-! ### Claim C10 -/

theorem mem_dedup_keep_first_go {α : Type} [DecidableEq α] :
    ∀ (fuel : Nat) (l : List α), l.length ≤ fuel →
      ∀ x, (x ∈ dedup_keep_first_go fuel l ↔ x ∈ l) := by
  intro fuel
  induction fuel with
  | zero =>
    intro l h x
    cases l with
    | nil => exact Iff.rfl
    | cons a as => simp at h
  | succ g ih =>
    intro l h x
    cases l with
    | nil => exact Iff.rfl
    | cons a as =>
      show x ∈ a :: dedup_keep_first_go g (as.filter fun y => y != a) ↔ _
      have hlen : (as.filter fun y => y != a).length ≤ g :=
        le_trans (List.length_filter_le _ as) (by simp at h; omega)
      constructor
      · intro hm
        rcases List.mem_cons.mp hm with rfl | hm'
        · simp
        · exact List.mem_cons.mpr
            (Or.inr (List.mem_filter.mp ((ih _ hlen x).mp hm')).1)
      · intro hm
        rcases List.mem_cons.mp hm with rfl | hm'
        · simp
        · by_cases hxa : x = a
          · subst hxa
            simp
          · exact List.mem_cons.mpr (Or.inr ((ih _ hlen x).mpr
              (List.mem_filter.mpr ⟨hm', by simpa using hxa⟩)))

theorem mem_dedup_keep_first {α : Type} [DecidableEq α] (l : List α) (x : α) :
    x ∈ dedup_keep_first l ↔ x ∈ l :=
  mem_dedup_keep_first_go l.length l (le_refl _) x

/-- Occupancy entries at cells never written by the permutation loop are
untouched, with no distinctness hypotheses. -/
theorem cycle_fold_c2t_untouched (cells tiles : List String) (Δ σ : Int) :
    ∀ (idx : List Nat) (st : BoardState) (x : String),
      (∀ i ∈ idx, x ≠ cells.getD (destination_index σ cells.length i) "") →
      js_get ((idx.foldl (move_step cells tiles Δ σ) st).cell_to_tile_id) x
        = js_get st.cell_to_tile_id x := by
  intro idx
  induction idx with
  | nil => intro st x _; rfl
  | cons i rest ih =>
    intro st x h
    rw [List.foldl_cons,
      ih (move_step cells tiles Δ σ st i) x (fun j hj => h j (by simp [hj]))]
    show js_get (js_set st.cell_to_tile_id _ _) x = _
    rw [js_get_js_set, if_neg (h i (by simp))]

/-- With every spin-cell lookup missing, the spin pass is the identity. -/
theorem apply_spins_all_missing (Δ σ : Int) :
    ∀ (l : List String) (st : BoardState),
      (∀ k ∈ l, js_get st.cell_to_tile_id k = none) →
      apply_spins l Δ σ st = (st, []) := by
  have haux : ∀ (l : List String) (st : BoardState) (ids : List String),
      (∀ k ∈ l, js_get st.cell_to_tile_id k = none) →
      l.foldl (spin_step Δ σ) (st, ids) = (st, ids) := by
    intro l
    induction l with
    | nil => intro st ids _; rfl
    | cons k rest ih =>
      intro st ids h
      rw [List.foldl_cons]
      have hstep : spin_step Δ σ (st, ids) k = (st, ids) := by
        unfold spin_step
        rw [h k (by simp)]
      rw [hstep]
      exact ih st ids (fun k' hk' => h k' (by simp [hk']))
  intro l st h
  exact haux l st [] h

/-- C10: if every cycle cell is occupied but the spin cells are unoccupied,
`apply_move` does not raise: it silently skips the spin cells, applies the
cycle permutation normally, and the returned changed-tile list contains
exactly the cycle tiles, with no entry for the missing spin tile. -/
theorem C10_missing_spin_tile (st : BoardState) (inst : AnchorInstance) (σ : Int)
    (tiles : List String)
    (hres : resolve_cycle st inst.cells = Except.ok tiles)
    (hmiss : ∀ k0 ∈ inst.spin_cells, js_get st.cell_to_tile_id k0 = none) :
    (apply_move st inst σ).2 = Except.ok (dedup_keep_first tiles)
    ∧ (apply_move st inst σ).1
        = apply_cycle inst.cells tiles inst.rotation_steps_cw σ st
    ∧ (∀ t, t ∈ dedup_keep_first tiles ↔ t ∈ tiles) := by
  have hpt := (resolve_cycle_spec hres).2
  have hmiss' : ∀ k0 ∈ inst.spin_cells,
      js_get (apply_cycle inst.cells tiles inst.rotation_steps_cw σ st).cell_to_tile_id k0
        = none := by
    intro k0 hk0
    have hk0n : k0 ∉ inst.cells := by
      intro hk0c
      obtain ⟨j, hj, hjk⟩ := mem_getD_of_mem hk0c
      have := hpt j hj
      rw [hjk, hmiss k0 hk0] at this
      simp at this
    show js_get ((List.range inst.cells.length).foldl
        (move_step inst.cells tiles inst.rotation_steps_cw σ) st).cell_to_tile_id k0 = none
    rw [cycle_fold_c2t_untouched inst.cells tiles inst.rotation_steps_cw σ
      (List.range inst.cells.length) st k0 (by
        intro i hi hcontra
        exact hk0n (hcontra ▸ getD_mem_of_lt
          (destination_index_lt σ inst.cells.length i (List.mem_range.mp hi))))]
    exact hmiss k0 hk0
  rw [apply_move_of_resolve_ok hres,
    apply_spins_all_missing inst.rotation_steps_cw σ inst.spin_cells _ hmiss']
  exact ⟨by simp, rfl, fun t => mem_dedup_keep_first tiles t⟩

/-! ### Claim C7 -/

/-- `get_cell_count_for_shape` (`derive_params.js`): exact rational
arithmetic, since the JS computation on these inputs is exact. -/
def get_cell_count_for_shape (grid_w grid_h : ℚ) : ℚ :=
  grid_w * grid_h + (grid_h - 1) / 2

theorem grid_cells_succ (W n : Nat) :
    grid_cells W (n + 1) = grid_cells W n
      ++ (List.range (if n % 2 = 0 then W else W + 1)).map
          (fun (q : Nat) => ({ q := (q : Int), r := (n : Int) } : Cell)) := by
  unfold grid_cells
  rw [List.range_succ, List.flatMap_append]
  simp

theorem mem_grid_cells_r_lt (W n : Nat) :
    ∀ c ∈ grid_cells W n, 0 ≤ c.r ∧ c.r < (n : Int) := by
  intro c hc
  unfold grid_cells at hc
  rcases List.mem_flatMap.mp hc with ⟨row, hrow, hcm⟩
  rcases List.mem_map.mp hcm with ⟨q, _, rfl⟩
  have := List.mem_range.mp hrow
  constructor
  · exact Int.ofNat_nonneg row
  · show (row : Int) < (n : Int)
    exact_mod_cast this

theorem grid_cells_filter_row (W : Nat) :
    ∀ (n r : Nat), r < n →
      ((grid_cells W n).filter (fun c => decide (c.r = (r : Int)))).length
        = if r % 2 = 0 then W else W + 1 := by
  intro n
  induction n with
  | zero => intro r hr; omega
  | succ m ih =>
    intro r hr
    rw [grid_cells_succ, List.filter_append, List.length_append]
    by_cases hrm : r < m
    · have hrow : (((List.range (if m % 2 = 0 then W else W + 1)).map
          (fun (q : Nat) => ({ q := (q : Int), r := (m : Int) } : Cell))).filter
            (fun c => decide (c.r = (r : Int)))) = [] := by
        rw [List.filter_eq_nil_iff]
        intro c hc
        rcases List.mem_map.mp hc with ⟨q, _, rfl⟩
        simp only [decide_eq_true_eq]
        intro hcon
        have : (m : Int) ≠ (r : Int) := by exact_mod_cast Nat.ne_of_gt hrm
        exact this hcon
      rw [hrow, ih r hrm]
      simp
    · have hrm' : r = m := by omega
      subst hrm'
      have hold : ((grid_cells W r).filter
          (fun c => decide (c.r = (r : Int)))) = [] := by
        rw [List.filter_eq_nil_iff]
        intro c hc
        have := (mem_grid_cells_r_lt W r c hc).2
        simp only [decide_eq_true_eq]
        omega
      have hrow : (((List.range (if r % 2 = 0 then W else W + 1)).map
          (fun (q : Nat) => ({ q := (q : Int), r := (r : Int) } : Cell))).filter
            (fun c => decide (c.r = (r : Int)))) =
          ((List.range (if r % 2 = 0 then W else W + 1)).map
            (fun (q : Nat) => ({ q := (q : Int), r := (r : Int) } : Cell))) := by
        rw [List.filter_eq_self]
        intro c hc
        rcases List.mem_map.mp hc with ⟨q, _, rfl⟩
        simp
      rw [hold, hrow]
      simp

theorem grid_cells_length (W : Nat) :
    ∀ n, (grid_cells W n).length = W * n + n / 2 := by
  intro n
  induction n with
  | zero => rfl
  | succ m ih =>
    rw [grid_cells_succ, List.length_append, ih, List.length_map, List.length_range,
      Nat.mul_succ]
    by_cases hm : m % 2 = 0
    · rw [if_pos hm]
      have h1 : (m + 1) / 2 = m / 2 := by omega
      rw [h1]
      omega
    · rw [if_neg hm]
      have h1 : (m + 1) / 2 = m / 2 + 1 := by omega
      rw [h1]
      omega

/-- C7: for every width at least 1 and odd height, `create_grid` succeeds and
produces the alternating-row cell list whose even rows have W cells and odd
rows W+1 cells, and whose total cell count equals the exact value of
`get_cell_count_for_shape`, namely W*H + (H-1)/2. -/
theorem C7_grid_rows_and_count (W H : Nat) (hW : 1 ≤ W) (hH : H % 2 = 1) :
    create_grid W H = Except.ok { w := W, h := H, all_cells := grid_cells W H }
    ∧ (∀ r : Nat, r < H →
        ((grid_cells W H).filter (fun c => decide (c.r = (r : Int)))).length
          = if r % 2 = 0 then W else W + 1)
    ∧ ((grid_cells W H).length : ℚ)
        = get_cell_count_for_shape (W : ℚ) (H : ℚ) := by
  refine ⟨?_, fun r hr => grid_cells_filter_row W H r hr, ?_⟩
  · unfold create_grid
    rw [if_neg (by omega)]
  · obtain ⟨k, hk⟩ : ∃ k, H = 2 * k + 1 := ⟨H / 2, by omega⟩
    rw [grid_cells_length]
    unfold get_cell_count_for_shape
    subst hk
    have hdiv : (2 * k + 1) / 2 = k := by omega
    rw [hdiv]
    push_cast
    ring

/-! ### Claim C5 -/

/-- The 7-by-3 grid of the claim's concrete part. -/
def grid73 : Grid := { w := 7, h := 3, all_cells := grid_cells 7 3 }

/-- Spec-side count of the distinct interior vertices shared by three grid
cells: a vertex is named by the canonical anchor id built from the
lexicographically sorted keys of its three incident cells, and the list
keeps one name per distinct fully-in-grid triple. -/
def distinct_vertex_ids (grid : Grid) : List String :=
  dedup_keep_first ((vertex_candidate_pairs grid).filterMap (fun p =>
    if vertex_triple_ok grid p.1 p.2 then some (vertex_inst_of p.1 p.2).anchor_id
    else none))

set_option maxRecDepth 100000 in
/-- C5: on every grid the vertex3_120 builder emits only instances of
fully-in-grid triples, with pairwise distinct canonical anchor ids, and
every fully-in-grid triple is represented by some emitted instance; on the
7-by-3 grid the number of instances equals the number of distinct interior
vertices shared by three cells (both are 26). -/
theorem C5_vertex_instances (grid : Grid) :
    (∀ inst ∈ build_vertex_instances grid,
      ∃ c : Cell, ∃ i : Nat, i < 6 ∧ vertex_triple_ok grid c i ∧ inst = vertex_inst_of c i)
    ∧ (((build_vertex_instances grid).map (fun inst => inst.anchor_id)).Nodup)
    ∧ (∀ c ∈ grid.all_cells, ∀ i : Nat, i < 6 → vertex_triple_ok grid c i →
        ∃ inst ∈ build_vertex_instances grid,
          inst.anchor_id = (vertex_inst_of c i).anchor_id)
    ∧ (build_vertex_instances grid73).length = (distinct_vertex_ids grid73).length
    ∧ (build_vertex_instances grid73).length = 26 := by
  obtain ⟨h1, h2, h3⟩ := build_vertex_instances_spec grid
  exact ⟨h1, h2, h3, by decide, by decide⟩

/-! ### Claim C4: `derive_grid_shape`

The JS code computes with floating-point approximations of numbers of the
form `a + b*sqrt 3` with rational `a`, `b`; the embedding carries the exact
pair and performs the sign tests by comparing squares. -/

/-- `a + b * sqrt 3` with exact rational coefficients. -/
structure Q3 where
  a : ℚ
  b : ℚ
deriving DecidableEq, Repr

def Q3.sub (x y : Q3) : Q3 := { a := x.a - y.a, b := x.b - y.b }

def Q3.of_q (c : ℚ) : Q3 := { a := c, b := 0 }

def Q3.div_q (x : Q3) (c : ℚ) : Q3 := { a := x.a / c, b := x.b / c }

/-- Exact sign test for `0 ≤ a + b * sqrt 3`, by comparing `a^2` with
`3 * b^2` when the two terms have opposite signs. -/
def Q3.nonneg (x : Q3) : Bool :=
  if 0 ≤ x.a then
    if 0 ≤ x.b then true else decide (3 * x.b ^ 2 ≤ x.a ^ 2)
  else
    if 0 ≤ x.b then decide (x.a ^ 2 ≤ 3 * x.b ^ 2) else false

/-- Exact `<` on `a + b * sqrt 3` values. -/
def Q3.ltb (x y : Q3) : Bool := !(Q3.nonneg (Q3.sub x y))

def Q3.abs (x : Q3) : Q3 := if Q3.nonneg x then x else { a := -x.a, b := -x.b }

/-- `get_padded_width_in_s` (`derive_params.js`):
`sqrt 3 * (grid_w + 1) + 2 * padding`. -/
def get_padded_width_in_s (grid_w padding_in_tile_units : ℚ) : Q3 :=
  { a := 2 * padding_in_tile_units, b := grid_w + 1 }

/-- `get_padded_height_in_s` (`derive_params.js`):
`1.5 * grid_h + 0.5 + 2 * padding`, an exact rational. -/
def get_padded_height_in_s (grid_h padding_in_tile_units : ℚ) : ℚ :=
  3 / 2 * grid_h + 1 / 2 + 2 * padding_in_tile_units

/-- `get_board_aspect` (`derive_params.js`): padded width over padded
height. -/
def get_board_aspect (grid_w grid_h padding_in_tile_units : ℚ) : Q3 :=
  Q3.div_q (get_padded_width_in_s grid_w padding_in_tile_units)
    (get_padded_height_in_s grid_h padding_in_tile_units)

/-- The candidate record built in the `derive_grid_shape` loop body. -/
structure GridCandidate where
  grid_w : ℚ
  grid_h : ℚ
  cell_count : ℚ
  board_aspect : Q3
  cell_delta : ℚ
  aspect_delta : Q3
deriving Repr

/-- The candidate for the pair (grid_h, grid_w). -/
def mk_candidate (target_cell_count image_aspect padding : ℚ) (hw : Nat × Nat) :
    GridCandidate :=
  { grid_w := (hw.2 : ℚ)
    grid_h := (hw.1 : ℚ)
    cell_count := get_cell_count_for_shape (hw.2 : ℚ) (hw.1 : ℚ)
    board_aspect := get_board_aspect (hw.2 : ℚ) (hw.1 : ℚ) padding
    cell_delta := |get_cell_count_for_shape (hw.2 : ℚ) (hw.1 : ℚ) - target_cell_count|
    aspect_delta := Q3.abs (Q3.sub (get_board_aspect (hw.2 : ℚ) (hw.1 : ℚ) padding)
      (Q3.of_q image_aspect)) }

/-- The `is_better` test of `derive_grid_shape`: lexicographic, cell-count
distance first, aspect distance second. -/
def is_better (cand best : GridCandidate) : Bool :=
  decide (cand.cell_delta < best.cell_delta)
  || (decide (cand.cell_delta = best.cell_delta)
      && Q3.ltb cand.aspect_delta best.aspect_delta)

/-- One iteration of the double loop of `derive_grid_shape`. -/
def derive_step (target_cell_count image_aspect padding : ℚ)
    (best : Option GridCandidate) (hw : Nat × Nat) : Option GridCandidate :=
  match best with
  | none => some (mk_candidate target_cell_count image_aspect padding hw)
  | some b =>
    if is_better (mk_candidate target_cell_count image_aspect padding hw) b then
      some (mk_candidate target_cell_count image_aspect padding hw)
    else some b

/-- The (grid_h, grid_w) pairs enumerated by `derive_grid_shape` with the
default bounds: grid_h = 3, 5, ..., 35 outer, grid_w = 1, ..., 50 inner. -/
def candidate_pairs : List (Nat × Nat) :=
  (List.range' 3 17 2).flatMap (fun grid_h =>
    (List.range' 1 50).map (fun grid_w => (grid_h, grid_w)))

/-- `derive_grid_shape` (`derive_params.js`) with the default candidate
bounds. -/
def derive_grid_shape (target_cell_count image_aspect padding : ℚ) :
    Option GridCandidate :=
  candidate_pairs.foldl (derive_step target_cell_count image_aspect padding) none

/-- The spec's strict order on candidate shapes, stated over the real
numbers: primary key the exact cell-count distance, secondary key the true
(irrational) board-aspect distance. -/
def real_lex_better (n ar d : ℚ) (W H W' H' : Nat) : Prop :=
  |get_cell_count_for_shape (W : ℚ) (H : ℚ) - n|
      < |get_cell_count_for_shape (W' : ℚ) (H' : ℚ) - n|
  ∨ (|get_cell_count_for_shape (W : ℚ) (H : ℚ) - n|
        = |get_cell_count_for_shape (W' : ℚ) (H' : ℚ) - n|
    ∧ |(Real.sqrt 3 * ((W : ℝ) + 1) + 2 * (d : ℝ))
          / (3 / 2 * (H : ℝ) + 1 / 2 + 2 * (d : ℝ)) - (ar : ℝ)|
      < |(Real.sqrt 3 * ((W' : ℝ) + 1) + 2 * (d : ℝ))
          / (3 / 2 * (H' : ℝ) + 1 / 2 + 2 * (d : ℝ)) - (ar : ℝ)|)

/-- C7 witness: the theorem instantiated on the 7-by-3 grid. -/
theorem C7_witness :
    1 ≤ 7 ∧ 3 % 2 = 1
    ∧ (create_grid 7 3 = Except.ok { w := 7, h := 3, all_cells := grid_cells 7 3 }
      ∧ (∀ r : Nat, r < 3 →
          ((grid_cells 7 3).filter (fun c => decide (c.r = (r : Int)))).length
            = if r % 2 = 0 then 7 else 7 + 1)
      ∧ ((grid_cells 7 3).length : ℚ)
          = get_cell_count_for_shape (7 : ℚ) (3 : ℚ)) :=
  ⟨by decide, by decide, C7_grid_rows_and_count 7 3 (by decide) (by decide)⟩


/-! ### C4: bridging the exact arithmetic to the real numbers -/

theorem sqrt3_mul_nonneg_eq (u : ℝ) (hu : 0 ≤ u) :
    u * Real.sqrt 3 = Real.sqrt (3 * u ^ 2) := by
  rw [Real.sqrt_mul (by norm_num : (0:ℝ) ≤ 3), Real.sqrt_sq hu]
  ring

theorem Q3.nonneg_iff (x : Q3) :
    Q3.nonneg x = true ↔ 0 ≤ (x.a : ℝ) + (x.b : ℝ) * Real.sqrt 3 := by
  have hs3 : (0 : ℝ) < Real.sqrt 3 := Real.sqrt_pos.mpr (by norm_num)
  unfold Q3.nonneg
  split_ifs with ha hb hb
  · constructor
    · intro _
      have hA : (0 : ℝ) ≤ (x.a : ℝ) := by exact_mod_cast ha
      have hB : (0 : ℝ) ≤ (x.b : ℝ) := by exact_mod_cast hb
      have := mul_nonneg hB hs3.le
      linarith
    · intro _
      rfl
  · simp only [decide_eq_true_eq]
    have hA : (0 : ℝ) ≤ (x.a : ℝ) := by exact_mod_cast ha
    have hB : (x.b : ℝ) < 0 := by exact_mod_cast lt_of_not_le hb
    constructor
    · intro hqle
      have hr : 3 * (x.b : ℝ) ^ 2 ≤ (x.a : ℝ) ^ 2 := by exact_mod_cast hqle
      have key : (-(x.b : ℝ)) * Real.sqrt 3 ≤ (x.a : ℝ) := by
        rw [sqrt3_mul_nonneg_eq (-(x.b : ℝ)) (by linarith)]
        have h1 : (3 : ℝ) * (-(x.b : ℝ)) ^ 2 = 3 * (x.b : ℝ) ^ 2 := by ring
        rw [h1]
        calc Real.sqrt (3 * (x.b : ℝ) ^ 2) ≤ Real.sqrt ((x.a : ℝ) ^ 2) :=
              Real.sqrt_le_sqrt hr
          _ = (x.a : ℝ) := Real.sqrt_sq hA
      linarith
    · intro h0
      have key : (-(x.b : ℝ)) * Real.sqrt 3 ≤ (x.a : ℝ) := by linarith
      have hkey0 : (0:ℝ) ≤ (-(x.b : ℝ)) * Real.sqrt 3 :=
        mul_nonneg (by linarith) hs3.le
      have h2 : ((-(x.b : ℝ)) * Real.sqrt 3) ^ 2 ≤ (x.a : ℝ) ^ 2 :=
        pow_le_pow_left₀ hkey0 key 2
      have h3 : ((-(x.b : ℝ)) * Real.sqrt 3) ^ 2 = 3 * (x.b : ℝ) ^ 2 := by
        rw [mul_pow, Real.sq_sqrt (by norm_num : (0:ℝ) ≤ 3)]
        ring
      rw [h3] at h2
      exact_mod_cast h2
  · simp only [decide_eq_true_eq]
    have hA : (x.a : ℝ) < 0 := by exact_mod_cast lt_of_not_le ha
    have hB : (0:ℝ) ≤ (x.b : ℝ) := by exact_mod_cast hb
    constructor
    · intro hqle
      have hr : (x.a : ℝ) ^ 2 ≤ 3 * (x.b : ℝ) ^ 2 := by exact_mod_cast hqle
      have key : -(x.a : ℝ) ≤ (x.b : ℝ) * Real.sqrt 3 := by
        rw [sqrt3_mul_nonneg_eq (x.b : ℝ) hB]
        have h1 : -(x.a : ℝ) = Real.sqrt ((x.a : ℝ) ^ 2) := by
          rw [Real.sqrt_sq_eq_abs, abs_of_neg hA]
        rw [h1]
        exact Real.sqrt_le_sqrt hr
      linarith
    · intro h0
      have key : -(x.a : ℝ) ≤ (x.b : ℝ) * Real.sqrt 3 := by linarith
      have h2 : (-(x.a : ℝ)) ^ 2 ≤ ((x.b : ℝ) * Real.sqrt 3) ^ 2 :=
        pow_le_pow_left₀ (by linarith) key 2
      have h3 : ((x.b : ℝ) * Real.sqrt 3) ^ 2 = 3 * (x.b : ℝ) ^ 2 := by
        rw [mul_pow, Real.sq_sqrt (by norm_num : (0:ℝ) ≤ 3)]
        ring
      rw [h3, neg_sq] at h2
      exact_mod_cast h2
  · have hA : (x.a : ℝ) < 0 := by exact_mod_cast lt_of_not_le ha
    have hB : (x.b : ℝ) < 0 := by exact_mod_cast lt_of_not_le hb
    refine iff_of_false (by simp) ?_
    intro h0
    have h1 : (x.b : ℝ) * Real.sqrt 3 < 0 := mul_neg_of_neg_of_pos hB hs3
    linarith

theorem Q3.nonneg_eq_false_iff (x : Q3) :
    Q3.nonneg x = false ↔ (x.a : ℝ) + (x.b : ℝ) * Real.sqrt 3 < 0 := by
  rw [Bool.eq_false_iff, Ne, Q3.nonneg_iff, not_le]

theorem Q3.ltb_iff (x y : Q3) :
    Q3.ltb x y = true ↔
      (x.a : ℝ) + (x.b : ℝ) * Real.sqrt 3 < (y.a : ℝ) + (y.b : ℝ) * Real.sqrt 3 := by
  unfold Q3.ltb Q3.sub
  rw [Bool.not_eq_true', Q3.nonneg_eq_false_iff]
  push_cast
  constructor <;> intro h <;> nlinarith [h]

theorem Q3.abs_real (x : Q3) :
    ((Q3.abs x).a : ℝ) + ((Q3.abs x).b : ℝ) * Real.sqrt 3
      = |(x.a : ℝ) + (x.b : ℝ) * Real.sqrt 3| := by
  unfold Q3.abs
  split_ifs with h
  · rw [abs_of_nonneg ((Q3.nonneg_iff x).mp h)]
  · have hneg : (x.a : ℝ) + (x.b : ℝ) * Real.sqrt 3 < 0 :=
      (Q3.nonneg_eq_false_iff x).mp (Bool.eq_false_iff.mpr h)
    rw [abs_of_neg hneg]
    push_cast
    ring

theorem aspect_delta_real (n ar d : ℚ) (hd : 0 ≤ d) (hw : Nat × Nat) :
    (((mk_candidate n ar d hw).aspect_delta).a : ℝ)
      + (((mk_candidate n ar d hw).aspect_delta).b : ℝ) * Real.sqrt 3
    = |(Real.sqrt 3 * ((hw.2 : ℝ) + 1) + 2 * (d : ℝ))
        / (3 / 2 * (hw.1 : ℝ) + 1 / 2 + 2 * (d : ℝ)) - (ar : ℝ)| := by
  have hh : (0:ℝ) ≤ (hw.1 : ℝ) := Nat.cast_nonneg hw.1
  have hdr : (0:ℝ) ≤ (d : ℝ) := by exact_mod_cast hd
  have hH : (0:ℝ) < 3 / 2 * (hw.1 : ℝ) + 1 / 2 + 2 * (d : ℝ) := by linarith
  have hmk : (mk_candidate n ar d hw).aspect_delta
      = Q3.abs (Q3.sub (get_board_aspect (hw.2 : ℚ) (hw.1 : ℚ) d) (Q3.of_q ar)) := rfl
  rw [hmk, Q3.abs_real]
  congr 1
  unfold Q3.sub Q3.of_q get_board_aspect Q3.div_q get_padded_width_in_s
    get_padded_height_in_s
  have hHq : ((3 / 2 * (hw.1 : ℚ) + 1 / 2 + 2 * d : ℚ) : ℝ)
      = 3 / 2 * (hw.1 : ℝ) + 1 / 2 + 2 * (d : ℝ) := by push_cast; ring
  push_cast
  field_simp
  ring

theorem real_lex_better_irrefl (n ar d : ℚ) (W H : Nat) :
    ¬ real_lex_better n ar d W H W H := by
  unfold real_lex_better
  rintro (h1 | ⟨h1, h2⟩)
  · exact lt_irrefl _ h1
  · exact lt_irrefl _ h2

theorem real_lex_better_trans (n ar d : ℚ) (W1 H1 W2 H2 W3 H3 : Nat)
    (h12 : real_lex_better n ar d W1 H1 W2 H2)
    (h23 : real_lex_better n ar d W2 H2 W3 H3) :
    real_lex_better n ar d W1 H1 W3 H3 := by
  unfold real_lex_better at h12 h23 ⊢
  rcases h12 with h1 | ⟨e1, l1⟩ <;> rcases h23 with h2 | ⟨e2, l2⟩
  · exact Or.inl (lt_trans h1 h2)
  · exact Or.inl (lt_of_lt_of_le h1 (le_of_eq e2))
  · exact Or.inl (lt_of_le_of_lt (le_of_eq e1) h2)
  · exact Or.inr ⟨e1.trans e2, lt_trans l1 l2⟩

theorem is_better_mk_iff (n ar d : ℚ) (hd : 0 ≤ d) (p q : Nat × Nat) :
    is_better (mk_candidate n ar d p) (mk_candidate n ar d q) = true
      ↔ real_lex_better n ar d p.2 p.1 q.2 q.1 := by
  have hp := aspect_delta_real n ar d hd p
  have hq := aspect_delta_real n ar d hd q
  have hcd : ∀ r : Nat × Nat, (mk_candidate n ar d r).cell_delta
      = |get_cell_count_for_shape (r.2 : ℚ) (r.1 : ℚ) - n| := fun _ => rfl
  unfold is_better real_lex_better
  simp only [Bool.or_eq_true, Bool.and_eq_true, decide_eq_true_eq, Q3.ltb_iff]
  rw [hcd p, hcd q, hp, hq]

/-- The best-so-far fold of `derive_grid_shape` selects a candidate no
listed pair strictly beats. -/
theorem derive_fold_spec (n ar d : ℚ) (hd : 0 ≤ d) :
    ∀ (l : List (Nat × Nat)) (x0 : Nat × Nat),
      ∃ x1 : Nat × Nat,
        l.foldl (derive_step n ar d) (some (mk_candidate n ar d x0))
          = some (mk_candidate n ar d x1)
        ∧ (x1 = x0 ∨ x1 ∈ l)
        ∧ (x1 = x0 ∨ is_better (mk_candidate n ar d x1) (mk_candidate n ar d x0) = true)
        ∧ ¬ is_better (mk_candidate n ar d x0) (mk_candidate n ar d x1) = true
        ∧ (∀ x ∈ l, ¬ is_better (mk_candidate n ar d x) (mk_candidate n ar d x1) = true) := by
  have hirr : ∀ p : Nat × Nat,
      ¬ is_better (mk_candidate n ar d p) (mk_candidate n ar d p) = true := by
    intro p hcon
    exact real_lex_better_irrefl n ar d p.2 p.1 ((is_better_mk_iff n ar d hd p p).mp hcon)
  have htrans : ∀ p q r : Nat × Nat,
      is_better (mk_candidate n ar d p) (mk_candidate n ar d q) = true →
      is_better (mk_candidate n ar d q) (mk_candidate n ar d r) = true →
      is_better (mk_candidate n ar d p) (mk_candidate n ar d r) = true := by
    intro p q r h1 h2
    exact (is_better_mk_iff n ar d hd p r).mpr
      (real_lex_better_trans n ar d p.2 p.1 q.2 q.1 r.2 r.1
        ((is_better_mk_iff n ar d hd p q).mp h1)
        ((is_better_mk_iff n ar d hd q r).mp h2))
  intro l
  induction l with
  | nil =>
    intro x0
    exact ⟨x0, rfl, Or.inl rfl, Or.inl rfl, hirr x0, by simp⟩
  | cons x rest ih =>
    intro x0
    rw [List.foldl_cons]
    by_cases hbet : is_better (mk_candidate n ar d x) (mk_candidate n ar d x0) = true
    · have hred : derive_step n ar d (some (mk_candidate n ar d x0)) x
          = if is_better (mk_candidate n ar d x) (mk_candidate n ar d x0) = true then
              some (mk_candidate n ar d x) else some (mk_candidate n ar d x0) := rfl
      rw [hred, if_pos hbet]
      obtain ⟨x1, heq, hx1, hchain, hnot0, hall⟩ := ih x
      refine ⟨x1, heq, ?_, ?_, ?_, ?_⟩
      · rcases hx1 with rfl | hm
        · exact Or.inr (by simp)
        · exact Or.inr (by simp [hm])
      · rcases hchain with rfl | hb
        · exact Or.inr hbet
        · exact Or.inr (htrans x1 x x0 hb hbet)
      · intro hcon
        rcases hchain with rfl | hb
        · exact hirr x0 (htrans x0 x1 x0 hcon hbet)
        · exact hirr x0 (htrans x0 x1 x0 hcon (htrans x1 x x0 hb hbet))
      · intro y hy
        rcases List.mem_cons.mp hy with rfl | hm
        · exact hnot0
        · exact hall y hm
    · have hred : derive_step n ar d (some (mk_candidate n ar d x0)) x
          = if is_better (mk_candidate n ar d x) (mk_candidate n ar d x0) = true then
              some (mk_candidate n ar d x) else some (mk_candidate n ar d x0) := rfl
      rw [hred, if_neg hbet]
      obtain ⟨x1, heq, hx1, hchain, hnot0, hall⟩ := ih x0
      refine ⟨x1, heq, ?_, hchain, hnot0, ?_⟩
      · rcases hx1 with rfl | hm
        · exact Or.inl rfl
        · exact Or.inr (by simp [hm])
      · intro y hy
        rcases List.mem_cons.mp hy with rfl | hm
        · intro hcon
          rcases hchain with rfl | hb
          · exact hbet hcon
          · exact hbet (htrans y x1 x0 hcon hb)
        · exact hall y hm

theorem mem_candidate_pairs (p : Nat × Nat) :
    p ∈ candidate_pairs ↔
      p.1 % 2 = 1 ∧ 3 ≤ p.1 ∧ p.1 ≤ 35 ∧ 1 ≤ p.2 ∧ p.2 ≤ 50 := by
  unfold candidate_pairs
  rw [List.mem_flatMap]
  constructor
  · rintro ⟨h, hh, hp⟩
    rcases List.mem_map.mp hp with ⟨w, hw, rfl⟩
    obtain ⟨i, hi, rfl⟩ := List.mem_range'.mp hh
    obtain ⟨hw1, hw2⟩ := List.mem_range'_1.mp hw
    refine ⟨by omega, by omega, by omega, hw1, by omega⟩
  · rintro ⟨h1, h2, h3, h4, h5⟩
    refine ⟨p.1, ?_, ?_⟩
    · rw [List.mem_range']
      exact ⟨(p.1 - 3) / 2, by omega, by omega⟩
    · rw [List.mem_map]
      exact ⟨p.2, List.mem_range'_1.mpr ⟨h4, by omega⟩, rfl⟩

theorem derive_grid_shape_spec (n ar d : ℚ) (hd : 0 ≤ d) :
    ∃ x1 ∈ candidate_pairs,
      derive_grid_shape n ar d = some (mk_candidate n ar d x1)
      ∧ ∀ x ∈ candidate_pairs,
          ¬ is_better (mk_candidate n ar d x) (mk_candidate n ar d x1) = true := by
  unfold derive_grid_shape
  cases hc : candidate_pairs with
  | nil => exact absurd hc (by decide)
  | cons p t =>
    rw [List.foldl_cons]
    have hstep : derive_step n ar d none p = some (mk_candidate n ar d p) := rfl
    rw [hstep]
    obtain ⟨x1, heq, hx1, hchain, hnot0, hall⟩ := derive_fold_spec n ar d hd t p
    refine ⟨x1, ?_, heq, ?_⟩
    · rcases hx1 with rfl | hm
      · exact List.mem_cons_self _ _
      · exact List.mem_cons.mpr (Or.inr hm)
    · intro x hx
      rcases List.mem_cons.mp hx with rfl | hm
      · exact hnot0
      · exact hall x hm

/-- C4: for every target cell count, aspect ratio, and nonnegative padding,
`derive_grid_shape` with the default bounds returns the candidate of a pair
(H, W) with H odd in 3..35 and W in 1..50 such that no pair in those ranges
is strictly better in the real lexicographic order of the spec: cell-count
distance first, true board-aspect distance second. -/
theorem C4_derive_grid_shape (n ar d : ℚ) (hd : 0 ≤ d) :
    ∃ best : GridCandidate, derive_grid_shape n ar d = some best
      ∧ ∃ H W : Nat,
          best = mk_candidate n ar d (H, W)
          ∧ best.grid_h = (H : ℚ) ∧ best.grid_w = (W : ℚ)
          ∧ H % 2 = 1 ∧ 3 ≤ H ∧ H ≤ 35 ∧ 1 ≤ W ∧ W ≤ 50
          ∧ ∀ H2 W2 : Nat, H2 % 2 = 1 → 3 ≤ H2 → H2 ≤ 35 → 1 ≤ W2 → W2 ≤ 50 →
              ¬ real_lex_better n ar d W2 H2 W H := by
  obtain ⟨x1, hx1mem, heq, hopt⟩ := derive_grid_shape_spec n ar d hd
  obtain ⟨hodd, hh3, hh35, hw1, hw50⟩ := (mem_candidate_pairs x1).mp hx1mem
  refine ⟨mk_candidate n ar d x1, heq, x1.1, x1.2, rfl, rfl, rfl,
    hodd, hh3, hh35, hw1, hw50, ?_⟩
  intro H2 W2 h1 h2 h3 h4 h5 hrl
  have hmem2 : ((H2, W2) : Nat × Nat) ∈ candidate_pairs :=
    (mem_candidate_pairs (H2, W2)).mpr ⟨h1, h2, h3, h4, h5⟩
  exact hopt (H2, W2) hmem2 ((is_better_mk_iff n ar d hd (H2, W2) x1).mpr hrl)

/-- C4 witness: the claim's concrete call, target count 75, aspect 3/2,
padding 1/2. -/
theorem C4_witness :
    (0 : ℚ) ≤ 1 / 2
    ∧ (∃ best : GridCandidate, derive_grid_shape 75 (3 / 2) (1 / 2) = some best
      ∧ ∃ H W : Nat,
          best = mk_candidate 75 (3 / 2) (1 / 2) (H, W)
          ∧ best.grid_h = (H : ℚ) ∧ best.grid_w = (W : ℚ)
          ∧ H % 2 = 1 ∧ 3 ≤ H ∧ H ≤ 35 ∧ 1 ≤ W ∧ W ≤ 50
          ∧ ∀ H2 W2 : Nat, H2 % 2 = 1 → 3 ≤ H2 → H2 ≤ 35 → 1 ≤ W2 → W2 ≤ 50 →
              ¬ real_lex_better 75 (3 / 2) (1 / 2) W2 H2 W H) :=
  ⟨by norm_num, C4_derive_grid_shape 75 (3 / 2) (1 / 2) (by norm_num)⟩


/-! ### Witnesses on concrete boards -/

/-- A board whose six ring cells around (1,1) are occupied while the spin
cell "1,1" itself is empty. -/
def st_missing_spin : BoardState :=
  { cell_to_tile_id := [("2,1", "t0"), ("1,0", "t1"), ("0,0", "t2"),
      ("0,1", "t3"), ("0,2", "t4"), ("1,2", "t5")]
    tile_id_to_cell := [("t0", "2,1"), ("t1", "1,0"), ("t2", "0,0"),
      ("t3", "0,1"), ("t4", "0,2"), ("t5", "1,2")]
    tile_rot := []
    tile_home_cell := [] }

/-- C9 witness: the 3-by-3 grid. -/
theorem C9_witness :
    1 ≤ 3 ∧ 3 % 2 = 1 ∧ create_grid 3 3 = Except.ok grid33
    ∧ ((∀ c ∈ grid33.all_cells,
        js_get (create_solved_state grid33).cell_to_tile_id (cell_key c) = some (cell_key c)
        ∧ js_get (create_solved_state grid33).tile_home_cell (cell_key c) = some (cell_key c)
        ∧ js_get (create_solved_state grid33).tile_rot (cell_key c) = some 0)
      ∧ is_solved (create_solved_state grid33) = true) :=
  ⟨by decide, by decide, rfl,
    C9_create_solved_state 3 3 grid33 (by decide) (by decide) rfl⟩

/-- C6 witness: the solved 3-by-3 board with the ring instance at (1,1). -/
theorem C6_witness :
    ((∃ e, (apply_move (create_solved_state grid33) ring6_inst_11 1).2 = Except.error e) ↔
      ∃ c ∈ ring6_inst_11.cells,
        js_get (create_solved_state grid33).cell_to_tile_id c = none)
    ∧ (∀ e, (apply_move (create_solved_state grid33) ring6_inst_11 1).2 = Except.error e →
        (apply_move (create_solved_state grid33) ring6_inst_11 1).1 = create_solved_state grid33
        ∧ ∃ c ∈ ring6_inst_11.cells,
            js_get (create_solved_state grid33).cell_to_tile_id c = none
            ∧ e = "Missing tile in cell " ++ c ++ ".") :=
  C6_missing_tile_error (create_solved_state grid33) ring6_inst_11 1

/-- C2 witness: the invariant on the solved 3-by-3 board and after one ring
move on it. -/
theorem C2_witness :
    StateInv (create_solved_state grid33)
    ∧ StateInv (apply_move (create_solved_state grid33) ring6_inst_11 1).1 :=
  ⟨C2_invariant.1 grid33,
    C2_invariant.2 (create_solved_state grid33) ring6_inst_11 1
      (C2_invariant.1 grid33) (by decide) (by decide)⟩

/-- C1 witness: one clockwise then one counterclockwise ring move on the
solved 3-by-3 board. -/
theorem C1_witness :
    (∀ x, js_get (apply_move (apply_move (create_solved_state grid33) ring6_inst_11 1).1
        ring6_inst_11 (-1)).1.cell_to_tile_id x
      = js_get (create_solved_state grid33).cell_to_tile_id x)
    ∧ (∀ t, js_get (apply_move (apply_move (create_solved_state grid33) ring6_inst_11 1).1
        ring6_inst_11 (-1)).1.tile_id_to_cell t
      = js_get (create_solved_state grid33).tile_id_to_cell t)
    ∧ (∀ t, (js_get (apply_move (apply_move (create_solved_state grid33) ring6_inst_11 1).1
        ring6_inst_11 (-1)).1.tile_rot t).getD 0
      = (js_get (create_solved_state grid33).tile_rot t).getD 0)
    ∧ (apply_move (apply_move (create_solved_state grid33) ring6_inst_11 1).1
        ring6_inst_11 (-1)).1.tile_home_cell
      = (create_solved_state grid33).tile_home_cell :=
  C1_reversibility grid33 "ring6_60"
    (build_cell_operator_instances grid33 "ring6_60" [0, 1, 2, 3, 4, 5] 1)
    ring6_inst_11 (create_solved_state grid33)
    ["2,1", "1,0", "0,0", "0,1", "0,2", "1,2"]
    rfl (by decide) (StateInv_create_solved_state grid33) rfl (by decide)

/-- C8 witness: six clockwise ring moves on the solved 3-by-3 board. -/
theorem C8_witness :
    6 / ring6_inst_11.rotation_steps_cw = (ring6_inst_11.cells.length : Int)
    ∧ (∀ x, js_get (iterate_apply_move ring6_inst_11 1 ring6_inst_11.cells.length
          (create_solved_state grid33)).cell_to_tile_id x
        = js_get (create_solved_state grid33).cell_to_tile_id x)
    ∧ (∀ t, js_get (iterate_apply_move ring6_inst_11 1 ring6_inst_11.cells.length
          (create_solved_state grid33)).tile_id_to_cell t
        = js_get (create_solved_state grid33).tile_id_to_cell t)
    ∧ (∀ t, (js_get (iterate_apply_move ring6_inst_11 1 ring6_inst_11.cells.length
          (create_solved_state grid33)).tile_rot t).getD 0
        = (js_get (create_solved_state grid33).tile_rot t).getD 0)
    ∧ (iterate_apply_move ring6_inst_11 1 ring6_inst_11.cells.length
          (create_solved_state grid33)).tile_home_cell
        = (create_solved_state grid33).tile_home_cell :=
  C8_repeat_restores grid33 "ring6_60"
    (build_cell_operator_instances grid33 "ring6_60" [0, 1, 2, 3, 4, 5] 1)
    ring6_inst_11 (create_solved_state grid33)
    ["2,1", "1,0", "0,0", "0,1", "0,2", "1,2"] 1
    rfl (by decide) (StateInv_create_solved_state grid33) rfl (by decide) (Or.inl rfl)

/-- C3 witness for the amended theorem: on the solved 3-by-3 board the
anchor tile "1,1" keeps its cell but its rotation changes. -/
theorem C3_witness :
    js_get (apply_move (create_solved_state grid33) ring6_inst_11 1).1.cell_to_tile_id "1,1"
      = some "1,1"
    ∧ js_get (apply_move (create_solved_state grid33) ring6_inst_11 1).1.tile_id_to_cell "1,1"
      = js_get (create_solved_state grid33).tile_id_to_cell "1,1"
    ∧ js_get (apply_move (create_solved_state grid33) ring6_inst_11 1).1.tile_rot "1,1"
      = some (positive_mod ((js_get (create_solved_state grid33).tile_rot "1,1").getD 0
          - ring6_inst_11.rotation_steps_cw * 1) 6)
    ∧ js_get (apply_move (create_solved_state grid33) ring6_inst_11 1).1.tile_rot "1,1"
      ≠ js_get (create_solved_state grid33).tile_rot "1,1" :=
  C3_ring6_anchor_spins grid33
    (build_cell_operator_instances grid33 "ring6_60" [0, 1, 2, 3, 4, 5] 1)
    ring6_inst_11 (create_solved_state grid33)
    ["2,1", "1,0", "0,0", "0,1", "0,2", "1,2"] 1 "1,1" "1,1"
    rfl (by decide) (StateInv_create_solved_state grid33) rfl (by decide) rfl rfl
    (Or.inl rfl)

/-- C10 witness: the ring instance at (1,1) on the board whose spin cell is
empty. -/
theorem C10_witness :
    (apply_move st_missing_spin ring6_inst_11 1).2
        = Except.ok (dedup_keep_first ["t0", "t1", "t2", "t3", "t4", "t5"])
    ∧ (apply_move st_missing_spin ring6_inst_11 1).1
        = apply_cycle ring6_inst_11.cells ["t0", "t1", "t2", "t3", "t4", "t5"]
            ring6_inst_11.rotation_steps_cw 1 st_missing_spin
    ∧ (∀ t, t ∈ dedup_keep_first ["t0", "t1", "t2", "t3", "t4", "t5"]
        ↔ t ∈ ["t0", "t1", "t2", "t3", "t4", "t5"]) :=
  C10_missing_spin_tile st_missing_spin ring6_inst_11 1
    ["t0", "t1", "t2", "t3", "t4", "t5"] rfl (by decide)

/-- C5 witness: the theorem instantiated on the 7-by-3 grid. -/
theorem C5_witness :
    (∀ inst ∈ build_vertex_instances grid73,
      ∃ c : Cell, ∃ i : Nat, i < 6 ∧ vertex_triple_ok grid73 c i ∧ inst = vertex_inst_of c i)
    ∧ (((build_vertex_instances grid73).map (fun inst => inst.anchor_id)).Nodup)
    ∧ (∀ c ∈ grid73.all_cells, ∀ i : Nat, i < 6 → vertex_triple_ok grid73 c i →
        ∃ inst ∈ build_vertex_instances grid73,
          inst.anchor_id = (vertex_inst_of c i).anchor_id)
    ∧ (build_vertex_instances grid73).length = (distinct_vertex_ids grid73).length
    ∧ (build_vertex_instances grid73).length = 26 :=
  C5_vertex_instances grid73

end RotHex
